import Mathlib

/-!
Verification development for the MTR normalization system
(category detection, OKPD2 code selection, validation rule engine,
and the batch-processing orchestrator).

The Python sources are shallowly embedded:

* Python `str` values are modelled as `String` / `List Char`;
* Python `float` scores and confidences are modelled as exact rationals `ℚ`
  (the scores are small decimal fractions combined by a handful of
  additions and multiplications);
* Python `None` becomes `Option.none`; exceptions become `Except`;
* Python dictionaries become association lists or structures, as noted at
  each definition;
* `str.lower()`, `\s`, `\w` and `\d` are modelled for the character ranges
  that the system works with: ASCII and the Cyrillic block А-я plus Ё/ё
  (Python's Unicode tables extend further, but no category keyword,
  pattern, rule constant or unit string uses anything beyond these);
* the regular expressions of the sources are fixed concrete patterns; each
  one is embedded as an executable search function with the same matching
  semantics, `re.IGNORECASE` being modelled by lowering the text first.
-/

/-- Python `\s` (ASCII range): space, tab, newline, carriage return,
vertical tab, form feed. -/
def pyIsSpace (c : Char) : Bool :=
  c = ' ' || c = '\t' || c = '\n' || c = '\r' || c = '\x0b' || c = '\x0c'

/-- Python `str.lower()` for the modelled ranges: ASCII `A`-`Z` and the
Cyrillic letters `А`-`Я` and `Ё`; every other character maps to itself. -/
def pyLower (c : Char) : Char :=
  match c with
  | 'A' => 'a' | 'B' => 'b' | 'C' => 'c' | 'D' => 'd' | 'E' => 'e'
  | 'F' => 'f' | 'G' => 'g' | 'H' => 'h' | 'I' => 'i' | 'J' => 'j'
  | 'K' => 'k' | 'L' => 'l' | 'M' => 'm' | 'N' => 'n' | 'O' => 'o'
  | 'P' => 'p' | 'Q' => 'q' | 'R' => 'r' | 'S' => 's' | 'T' => 't'
  | 'U' => 'u' | 'V' => 'v' | 'W' => 'w' | 'X' => 'x' | 'Y' => 'y'
  | 'Z' => 'z'
  | 'А' => 'а' | 'Б' => 'б' | 'В' => 'в' | 'Г' => 'г' | 'Д' => 'д'
  | 'Е' => 'е' | 'Ж' => 'ж' | 'З' => 'з' | 'И' => 'и' | 'Й' => 'й'
  | 'К' => 'к' | 'Л' => 'л' | 'М' => 'м' | 'Н' => 'н' | 'О' => 'о'
  | 'П' => 'п' | 'Р' => 'р' | 'С' => 'с' | 'Т' => 'т' | 'У' => 'у'
  | 'Ф' => 'ф' | 'Х' => 'х' | 'Ц' => 'ц' | 'Ч' => 'ч' | 'Ш' => 'ш'
  | 'Щ' => 'щ' | 'Ъ' => 'ъ' | 'Ы' => 'ы' | 'Ь' => 'ь' | 'Э' => 'э'
  | 'Ю' => 'ю' | 'Я' => 'я' | 'Ё' => 'ё'
  | c => c

/-- Lowering a list of characters (`str.lower()` on a whole string). -/
def lowerL (l : List Char) : List Char := l.map pyLower

/-- Lowering a `String`. -/
def pyLowerStr (s : String) : String := ⟨lowerL s.data⟩

/-- Python `\w` for the modelled ranges: ASCII letters and digits,
underscore, and the Cyrillic letters А-я, Ё, ё. -/
def pyIsWordChar (c : Char) : Bool :=
  c.isAlpha || c.isDigit || c = '_' || ('А' ≤ c && c ≤ 'я') || c = 'Ё' || c = 'ё'

/-- Characters kept by `_normalize_text`'s second substitution
`re.sub(r'[^\w\s\-\+/\.\,А-Яа-я]', ' ', text)`: word characters,
whitespace, and the four listed punctuation marks. -/
def keptChar (c : Char) : Bool :=
  pyIsWordChar c || pyIsSpace c || c = '-' || c = '+' || c = '/' || c = '.' || c = ','

/-- One step of `re.sub(r'\s+', ' ', text)`: the flag records whether the
previous character belonged to a whitespace run (a run contributes a
single space). -/
def collapseWsAux : Bool → List Char → List Char
  | _, [] => []
  | b, c :: rest =>
    if pyIsSpace c then
      (if b then collapseWsAux true rest else ' ' :: collapseWsAux true rest)
    else c :: collapseWsAux false rest

/-- Python `re.sub(r'\s+', ' ', text)`. -/
def collapseWs (l : List Char) : List Char := collapseWsAux false l

/-- The character-level substitution of
`re.sub(r'[^\w\s\-\+/\.\,А-Яа-я]', ' ', text)`. -/
def replChar (c : Char) : Char := if keptChar c then c else ' '

/-- Python `str.strip()`: drop whitespace from both ends. -/
def pyStripL (l : List Char) : List Char :=
  ((l.dropWhile pyIsSpace).reverse.dropWhile pyIsSpace).reverse

/-- CategoryDetector._normalize_text: collapse whitespace runs, replace
characters outside the kept set with spaces, then strip. -/
def normalizeTextL (l : List Char) : List Char :=
  pyStripL ((collapseWs l).map replChar)

/-- Substring test (Python `needle in haystack` on strings), executable. -/
def containsB (n : List Char) : List Char → Bool
  | [] => n.isEmpty
  | c :: r => n.isPrefixOf (c :: r) || containsB n r

/-- Does any suffix of the list satisfy the predicate?  Used to model
`re.search`, which tries a match at every starting position. -/
def anyTail (p : List Char → Bool) : List Char → Bool
  | [] => p []
  | c :: r => p (c :: r) || anyTail p r

/-- The suffix that follows the first occurrence of `n`, if `n` occurs. -/
def findAfter (n : List Char) : List Char → Option (List Char)
  | [] => if n.isEmpty then some [] else none
  | c :: r =>
    if n.isPrefixOf (c :: r) then some ((c :: r).drop n.length)
    else findAfter n r

/-- Search for literals separated by `.*`: each literal must occur, in
order, each strictly after the end of the previous one. -/
def seqSearch : List (List Char) → List Char → Bool
  | [], _ => true
  | n :: ns, h =>
    match findAfter n h with
    | none => false
    | some rest => seqSearch ns rest

/-- Search for `a\s*b`: the literal `a`, optional whitespace, then the
literal `b`. -/
def searchLitWsLit (a b : List Char) (h : List Char) : Bool :=
  anyTail (fun s => a.isPrefixOf s && b.isPrefixOf ((s.drop a.length).dropWhile pyIsSpace)) h

/-- Search for `a\d+`: the literal `a` followed by at least one digit. -/
def searchLitDigit (a : List Char) (h : List Char) : Bool :=
  anyTail (fun s =>
    a.isPrefixOf s &&
      (match s.drop a.length with
       | d :: _ => d.isDigit
       | [] => false)) h

/-- Search for `\d+\s*(u₁|u₂|…)`: digits, optional whitespace, then one of
the unit literals. -/
def searchNumUnits (units : List (List Char)) (h : List Char) : Bool :=
  anyTail (fun s =>
    match s with
    | d :: _ =>
      d.isDigit &&
        (let after := (s.dropWhile Char.isDigit).dropWhile pyIsSpace
         units.any (fun u => u.isPrefixOf after))
    | [] => false) h

/-- Search for `\d+\s*(u₁|u₂).*t`: digits, optional whitespace, a unit
literal, and the literal `t` somewhere after it. -/
def searchNumUnitsThen (units : List (List Char)) (t : List Char) (h : List Char) : Bool :=
  anyTail (fun s =>
    match s with
    | d :: _ =>
      d.isDigit &&
        (let after := (s.dropWhile Char.isDigit).dropWhile pyIsSpace
         units.any (fun u => u.isPrefixOf after && containsB t (after.drop u.length)))
    | [] => false) h

/-- Search for `a.*\d+`: the literal `a` with at least one digit after it. -/
def searchLitThenDigit (a : List Char) (h : List Char) : Bool :=
  match findAfter a h with
  | none => false
  | some rest => rest.any Char.isDigit

/-- Search for the tire size `\d{3}/\d{2}\s*R\d{2}` on lowered text. -/
def searchTireSize (h : List Char) : Bool :=
  anyTail (fun s =>
    match s with
    | a :: b :: c :: sl :: d :: e :: rest =>
      a.isDigit && b.isDigit && c.isDigit && sl = '/' && d.isDigit && e.isDigit &&
        (match rest.dropWhile pyIsSpace with
         | 'r' :: f :: g :: _ => f.isDigit && g.isDigit
         | _ => false)
    | _ => false) h

/-- Python `code.split(".")`: split at every dot, keeping empty pieces. -/
def splitDotAux (acc : List Char) : List Char → List (List Char)
  | [] => [acc.reverse]
  | c :: r => if c = '.' then acc.reverse :: splitDotAux [] r else splitDotAux (c :: acc) r

/-- Python `code.split(".")` on a string. -/
def splitDot (s : String) : List (List Char) := splitDotAux [] s.data

/-- Python `text.split()` (no argument): whitespace-delimited words, with
no empty pieces. -/
def pySplitWs (l : List Char) : List (List Char) :=
  (l.splitOnP pyIsSpace).filter (fun w => ¬ w.isEmpty)

/-- Python `", ".join(xs)` and relatives. -/
def joinWith (sep : String) (xs : List String) : String := String.intercalate sep xs

/-- Require that a string starts with a given one
(Python `s.startswith(p)`). -/
def startsWithB (s p : String) : Bool := p.data.isPrefixOf s.data

/-! ## Data model (`src/models/models.py`) -/

/-- models.ProductCategory: plain-`Enum` members (they are *not* `str`
subclasses, which matters for the dictionary-membership checks below). -/
inductive ProductCategory
  | PRESSURE_SENSOR
  | STEEL_CIRCLE
  | HAMMER
  | TIRE
  | UNKNOWN
deriving DecidableEq, Repr

/-- The `.value` string of a `ProductCategory` member. -/
def ProductCategory.value : ProductCategory → String
  | .PRESSURE_SENSOR => "PRESSURE_SENSOR"
  | .STEEL_CIRCLE => "STEEL_CIRCLE"
  | .HAMMER => "HAMMER"
  | .TIRE => "TIRE"
  | .UNKNOWN => "UNKNOWN"

/-- models.ProcessingStatus. -/
inductive ProcessingStatus
  | PENDING
  | PROCESSING
  | COMPLETED
  | FAILED
  | REJECTED
deriving DecidableEq, Repr

/-- models.Product.  `specifications` is an insertion-ordered dictionary
with string values (`str(value)` is applied wherever the sources inspect a
value); `processing_timestamp` carries no information used by any claim
and is omitted. -/
structure Product where
  internal_code : String
  original_name : String
  original_unit : String
  category_name : String
  category : ProductCategory := .UNKNOWN
  normalized_unit : Option String := none
  okpd2_code : Option String := none
  comment : Option String := none
  specifications : List (String × String) := []
  status : ProcessingStatus := .PENDING
  error_message : Option String := none
  confidence_score : ℚ := 0
  excel_row : Option ℕ := none
deriving DecidableEq, Repr

/-- The dictionary view of a research result as consumed downstream
(`research_result.__dict__` plus the `product_type` key that
`_score_candidate` probes with `.get`; the pipeline's `ResearchResult`
dataclass never sets that key, so it may be absent = `none`). -/
structure ResearchDict where
  product_name : String := ""
  manufacturer : Option String := none
  model : Option String := none
  specifications : List (String × String) := []
  sources : List String := []
  confidence : ℚ := 0
  product_type : Option String := none
deriving DecidableEq, Repr

/-- One OKPD2 candidate dictionary `{code, name, level?}`; the `level` key
may be absent. -/
structure Candidate where
  code : String
  name : String
  level : Option ℤ := none
deriving DecidableEq, Repr

/-- models.OKPD2Result. -/
structure OKPD2Result where
  code : String
  name : String
  level : ℤ
  parent_code : Option String := none
  confidence : ℚ := 0
  alternative_codes : List (String × String × ℚ) := []
deriving DecidableEq, Repr

/-- models.ValidationResult. -/
structure ValidationResult where
  is_valid : Bool
  issues : List String := []
  rejection_reason : Option String := none
  suggestions : List String := []
deriving DecidableEq, Repr

/-! ## Configuration (`config/config.py`) -/

/-- One entry of the `PRODUCT_CATEGORIES` table.  The Python key
`okpd2_prefix` is spelled `okpd2Prefix` here. -/
structure CatConfig where
  keywords : List String
  unit : String
  okpd2Prefix : String
  schema : List String
deriving DecidableEq, Repr

/-- config.PRODUCT_CATEGORIES: a dictionary with *string* keys. -/
def PRODUCT_CATEGORIES : List (String × CatConfig) :=
  [("PRESSURE_SENSOR",
    { keywords := ["датчик", "давлен", "sensor", "pressure", "преобразователь"]
      unit := "штука"
      okpd2Prefix := "26.51.52"
      schema := ["product", "type", "measured_quantity", "trademark_producer",
        "model_article", "identification", "measurement_range",
        "ambient_temperature", "accuracy_class", "output_signal",
        "climate_category", "explosion_protection", "electrical_connector",
        "additional_characteristics", "sensor_mount", "protection_degree",
        "material", "size_mm", "standard", "weight_kg"] }),
   ("STEEL_CIRCLE",
    { keywords := ["круг", "сталь", "steel", "circle", "прокат"]
      unit := "тонна"
      okpd2Prefix := "24.10.75"
      schema := ["product", "hardness", "rolling_accuracy", "curvature_class",
        "diameter_mm", "length", "length_dimension", "standard_assortment",
        "surface_quality", "steel_grade", "standard_material", "weight_ton"] }),
   ("HAMMER",
    { keywords := ["молот", "hammer"]
      unit := "штука"
      okpd2Prefix := "25.73.30"
      schema := ["product", "type", "striker_type", "trademark", "model_designation",
        "article", "striker_weight_kg", "length_mm", "handle_material",
        "handle_type", "standard", "additional_characteristics", "weight_kg"] }),
   ("TIRE",
    { keywords := ["шина", "tire", "резина", "покрышка"]
      unit := "штука"
      okpd2Prefix := "22.11.11"
      schema := ["product", "season", "spikes_on_tires", "trademark_manufacturer",
        "model", "article", "width", "profile", "diameter", "speed_index",
        "load_index", "extra_load", "construction", "weight_kg"] })]

/-- Lookup in a string-keyed dictionary modelled as an association list. -/
def alistLookup {α : Type} (l : List (String × α)) (k : String) : Option α :=
  (l.find? (fun kv => kv.1 = k)).map (·.2)

/-- config.COMPLIANCE_RULES["rejection_reasons"]. -/
def complianceRejectionReasons : List String :=
  ["Не подлежит нормализации: артикул не соответствует цвету",
   "Не подлежит нормализации: вариативность по диаметру и марке стали",
   "Не подлежит нормализации: неполные технические характеристики",
   "Не подлежит нормализации: отсутствует код ОКПД2",
   "Не подлежит нормализации: невозможно определить производителя"]

/-- config.COMPLIANCE_RULES["unit_validation"]. -/
def unitValidation : List (String × List String) :=
  [("датчик", ["штука", "шт", "шт."]),
   ("круг", ["тонна", "т", "тн"]),
   ("молоток", ["штука", "шт", "шт."]),
   ("шина", ["штука", "шт", "шт."])]

/-- config.PROCESSING_CONFIG["batch_size"]. -/
def batchSize : ℕ := 10

/-! ## Category detector (`src/utils/category_detector.py`)

`CategoryDetector._compile_patterns` builds a fixed table of compiled
regular expressions per known category; each is embedded below as a search
function over the *lowered* text (all patterns carry `re.IGNORECASE`). -/

/-- The seven compiled patterns for `ProductCategory.PRESSURE_SENSOR`. -/
def sensorPatterns : List (List Char → Bool) :=
  [seqSearch ["датчик".data, "давлен".data],
   searchLitWsLit "pressure".data "sensor".data,
   seqSearch ["преобразователь".data, "давлен".data],
   searchLitDigit "пд".data,
   fun t => ["endress+hauser".data, "овен".data, "danfoss".data, "siemens".data].any
     (fun b => seqSearch [b, "давлен".data] t),
   fun t => ["pmp".data, "pmc".data, "ptp".data, "cerabar".data, "deltabar".data].any
     (fun m => containsB m t),
   searchNumUnits ["мпа".data, "mpa".data, "кпа".data, "kpa".data, "бар".data, "bar".data]]

/-- The seven compiled patterns for `ProductCategory.STEEL_CIRCLE`. -/
def steelPatterns : List (List Char → Bool) :=
  [seqSearch ["круг".data, "сталь".data],
   seqSearch ["steel".data, "circle".data],
   seqSearch ["прокат".data, "круг".data],
   seqSearch ["горячекатан".data, "круг".data],
   searchLitWsLit "гост".data "2590".data,
   searchNumUnitsThen ["мм".data] "сталь".data,
   searchLitThenDigit "сталь".data]

/-- The seven compiled patterns for `ProductCategory.HAMMER`. -/
def hammerPatterns : List (List Char → Bool) :=
  [containsB "молот".data,
   containsB "hammer".data,
   seqSearch ["слесарн".data, "молот".data],
   seqSearch ["электромонтаж".data, "молот".data],
   searchNumUnitsThen ["кг".data, "kg".data] "молот".data,
   seqSearch ["рукоят".data, "молот".data],
   fun t => ["stanley".data, "gross".data, "matrix".data, "sparta".data].any
     (fun m => containsB m t)]

/-- The eight compiled patterns for `ProductCategory.TIRE`. -/
def tirePatterns : List (List Char → Bool) :=
  [fun t => containsB "шина".data t || containsB "шины".data t,
   containsB "tire".data,
   seqSearch ["резин".data, "колес".data],
   containsB "покрыш".data,
   searchTireSize,
   fun t => ["зимн".data, "летн".data, "всесезон".data].any (fun m => containsB m t),
   fun t => ["nokian".data, "michelin".data, "bridgestone".data, "continental".data,
     "кама".data, "bfgoodrich".data].any (fun m => containsB m t),
   fun t => ["hakkapeliitta".data, "pilot".data, "turanza".data].any
     (fun m => containsB m t)]

/-- CategoryDetector.patterns: the dictionary has entries only for the
four known categories, so `UNKNOWN` contributes the empty list (the
`if category in self.patterns` guard fails for it). -/
def patternsFor : ProductCategory → List (List Char → Bool)
  | .PRESSURE_SENSOR => sensorPatterns
  | .STEEL_CIRCLE => steelPatterns
  | .HAMMER => hammerPatterns
  | .TIRE => tirePatterns
  | .UNKNOWN => []

/-- The keyword list of a category, looked up by its `.value` string in
`PRODUCT_CATEGORIES` (this is the detector's
`self.categories[category.value].get("keywords", [])`; `"UNKNOWN"` is not
a key, so `UNKNOWN` gets no keywords). -/
def keywordsOf (category : ProductCategory) : List String :=
  ((alistLookup PRODUCT_CATEGORIES category.value).map (·.keywords)).getD []

/-- CategoryDetector._calculate_category_score: 0.3 per matching pattern
plus 0.2 per keyword contained (case-insensitively) in the text, capped
at 1.0. -/
def categoryScore (text : List Char) (category : ProductCategory) : ℚ :=
  let patternMatches : ℕ := (patternsFor category).countP (fun p => p (lowerL text))
  let keywordMatches : ℕ :=
    (keywordsOf category).countP (fun kw => containsB (lowerL kw.data) (lowerL text))
  min ((patternMatches : ℚ) * Rat.divInt 3 10 + (keywordMatches : ℚ) * Rat.divInt 1 5) 1

/-- The scoring loop `for category in ProductCategory` skips `UNKNOWN`,
so it scores exactly these four categories, in declaration order. -/
def knownCategories : List ProductCategory :=
  [.PRESSURE_SENSOR, .STEEL_CIRCLE, .HAMMER, .TIRE]

/-- One step of Python's `max(scores, key=scores.get)`: a later entry
replaces the current best only when its score is strictly greater, so the
first-declared category wins ties. -/
def maxPair (a b : ProductCategory × ℚ) : ProductCategory × ℚ :=
  if b.2 > a.2 then b else a

/-- The `(category, score)` pairs computed by `detect_category`. -/
def scoredPairs (name : List Char) : List (ProductCategory × ℚ) :=
  knownCategories.map (fun c => (c, categoryScore (normalizeTextL name) c))

/-- Python's `max(scores, key=scores.get)` over the score dictionary,
together with the winning score (the `if not scores` guard of the source
corresponds to the empty-list arm, which is unreachable). -/
def bestPair (name : List Char) : ProductCategory × ℚ :=
  match scoredPairs name with
  | [] => (.UNKNOWN, 0)
  | hd :: tl => tl.foldl maxPair hd

/-- CategoryDetector.detect_category on the character list of the name:
empty input short-circuits (`if not product_name`), otherwise the best
scored category is returned unless its score is below the 0.3 threshold,
in which case `UNKNOWN` is returned with that score. -/
def detectCategoryL (name : List Char) : ProductCategory × ℚ :=
  if name.isEmpty then (.UNKNOWN, 0)
  else
    let best := bestPair name
    if best.2 < Rat.divInt 3 10 then (.UNKNOWN, best.2) else best

/-- CategoryDetector.detect_category. -/
def detectCategory (name : String) : ProductCategory × ℚ := detectCategoryL name.data

/-- The winning score (confidence before thresholding) of a name. -/
def maxCategoryScore (name : String) : ℚ := (bestPair name.data).2

/-- The winning category (before thresholding) of a name. -/
def bestCategory (name : String) : ProductCategory := (bestPair name.data).1

/-! ## OKPD2 classifier (`src/agents/okpd2_agent.py`, pure parts)

Candidate discovery (web scraping / LLM suggestions) is an external
capability; what is embedded is `_select_best_code`, `_score_candidate`,
`_get_code_level` and `_get_parent_code`, which are pure. -/

/-- Join code segments back with dots (Python `".".join(parts)`). -/
def joinDots (parts : List (List Char)) : String :=
  String.intercalate "." (parts.map (fun p => ⟨p⟩))

/-- OKPD2ClassifierAgent._get_code_level. -/
def getCodeLevel (code : String) : ℤ :=
  let parts := splitDot code
  if 3 ≤ parts.length ∧ parts.getD 2 [] ≠ "00".data then
    (if parts.length = 4 then 4 else 3)
  else if 2 ≤ parts.length ∧ parts.getD 1 [] ≠ "00".data then 2
  else 1

/-- OKPD2ClassifierAgent._get_parent_code. -/
def getParentCode (code : String) : Option String :=
  let parts := splitDot code
  if 1 < parts.length then
    if parts.length = 4 then some (joinDots (parts.take 3))
    else if parts.length = 3 then some (joinDots (parts.take 2))
    else if parts.length = 2 then some ⟨parts.getD 0 []⟩
    else none
  else none

/-- Python `category in PRODUCT_CATEGORIES`: dictionary membership tests
the `ProductCategory` member against the dictionary's `str` keys with
`==`; a plain-`Enum` member never equals a `str`, so the comparison is
`False` for every key. -/
def enumEqStrKey (_category : ProductCategory) (_key : String) : Bool := false

/-- The guard `if category in PRODUCT_CATEGORIES` as Python evaluates it
(see `enumEqStrKey`; the guarded bodies index `PRODUCT_CATEGORIES` by
`category.value`, which would be the matching key). -/
def categoryInProductCategories (category : ProductCategory) : Bool :=
  PRODUCT_CATEGORIES.any (fun kv => enumEqStrKey category kv.1)

/-- The configured `okpd2_prefix` of a category (by its `.value` key),
with a fallback default. -/
def okpd2PrefixOf (category : ProductCategory) (dflt : String) : String :=
  ((alistLookup PRODUCT_CATEGORIES category.value).map (·.okpd2Prefix)).getD dflt

/-- OKPD2ClassifierAgent._score_candidate. -/
def scoreCandidate (candidate : Candidate) (product : Product)
    (category : ProductCategory) (research : Option ResearchDict) : ℚ :=
  let level : ℤ := candidate.level.getD (getCodeLevel candidate.code)
  let levelTerm : ℚ := (level : ℚ) * Rat.divInt 1 5
  let prefixTerm : ℚ :=
    if categoryInProductCategories category then
      (if startsWithB candidate.code (okpd2PrefixOf category "") then Rat.divInt 3 10 else 0)
    else 0
  let nameLower := lowerL candidate.name.data
  let productLower := lowerL product.original_name.data
  let nameMatches : ℕ :=
    (pySplitWs productLower).countP (fun w => 3 < w.length && containsB w nameLower)
  let nameTerm : ℚ := min ((nameMatches : ℚ) * Rat.divInt 1 10) (Rat.divInt 3 10)
  let researchTerm : ℚ :=
    match research with
    | some rd =>
      match rd.product_type with
      | some t => if t ≠ "" && containsB (lowerL t.data) nameLower then Rat.divInt 1 5 else 0
      | none => 0
    | none => 0
  levelTerm + prefixTerm + nameTerm + researchTerm

/-- Stable insertion of a scored candidate into a descending-sorted list:
an element is placed before the first entry whose score is not greater,
so equal scores keep their original order. -/
def insertDesc (x : ℚ × Candidate) : List (ℚ × Candidate) → List (ℚ × Candidate)
  | [] => [x]
  | y :: r => if y.1 ≤ x.1 then x :: y :: r else y :: insertDesc x r

/-- Python's stable `scored_candidates.sort(key=lambda x: x[0],
reverse=True)`, realised as a stable insertion sort (extensionally equal
to any stable descending sort by the first component). -/
def sortDescByScore : List (ℚ × Candidate) → List (ℚ × Candidate)
  | [] => []
  | x :: r => insertDesc x (sortDescByScore r)

/-- OKPD2ClassifierAgent._select_best_code. -/
def selectBestCode (candidates : List Candidate) (product : Product)
    (category : ProductCategory) (research : Option ResearchDict) : OKPD2Result :=
  if candidates.isEmpty then
    if categoryInProductCategories category then
      { code := okpd2PrefixOf category "00.00.00"
        name := "Default classification for " ++ category.value
        level := 2
        confidence := Rat.divInt 3 10 }
    else
      { code := "00.00.00"
        name := "Unclassified product"
        level := 1
        confidence := Rat.divInt 1 10 }
  else
    let scored := candidates.map (fun c => (scoreCandidate c product category research, c))
    let sorted := sortDescByScore scored
    let best := sorted.headD (0, { code := "", name := "" })
    { code := best.2.code
      name := best.2.name
      level := best.2.level.getD (getCodeLevel best.2.code)
      parent_code := getParentCode best.2.code
      confidence := min best.1 1
      alternative_codes := ((sorted.drop 1).take 3).map (fun sc => (sc.2.code, sc.2.name, sc.1)) }

/-- Stated from the claim wording of C3, for comparison with the source's
`_get_code_level`: "4 segments give 4, 3 segments with a non-\"00\" third
segment give 3, 2 segments with a non-\"00\" second segment give 2,
else 1". -/
def claimedCodeLevel (code : String) : ℤ :=
  let parts := splitDot code
  if parts.length = 4 then 4
  else if parts.length = 3 ∧ parts.getD 2 [] ≠ "00".data then 3
  else if parts.length = 2 ∧ parts.getD 1 [] ≠ "00".data then 2
  else 1

/-- Stated from the claim wording of C3, for comparison with the source's
`_score_candidate`: level*0.2 (level per `claimedCodeLevel` when absent)
plus 0.3 when the code starts with the category's expected prefix, plus
min(0.3, 0.1·(matching long product-name words)), plus 0.2 when the
research-supplied product type appears in the candidate name. -/
def claimedScore (candidate : Candidate) (product : Product)
    (category : ProductCategory) (research : Option ResearchDict) : ℚ :=
  ((candidate.level.getD (claimedCodeLevel candidate.code) : ℤ) : ℚ) * Rat.divInt 1 5
  + (if category ≠ .UNKNOWN ∧ startsWithB candidate.code (okpd2PrefixOf category "") then
      Rat.divInt 3 10 else 0)
  + min (((pySplitWs (lowerL product.original_name.data)).countP
      (fun w => 3 < w.length && containsB w (lowerL candidate.name.data)) : ℚ) * Rat.divInt 1 10)
      (Rat.divInt 3 10)
  + (match research with
     | some rd =>
       match rd.product_type with
       | some t =>
         if t ≠ "" && containsB (lowerL t.data) (lowerL candidate.name.data) then Rat.divInt 1 5
         else 0
       | none => 0
     | none => 0)

/-! ## Validation agent (`src/agents/validation_agent.py`)

Everything except `_generate_suggestions` (an external LLM call, modelled
as an `Except`-valued oracle with the source's fixed fallback list) is
pure and embedded below. -/

/-- Round half to even (the rounding of Python's float formatting,
applied here to the exact rational value). -/
def roundHalfEven (q : ℚ) : ℤ :=
  let f := q.num.fdiv (q.den : ℤ)
  let r := q.num.fmod (q.den : ℤ)
  if 2 * r < (q.den : ℤ) then f
  else if (q.den : ℤ) < 2 * r then f + 1
  else if f % 2 = 0 then f else f + 1

/-- Python `f"{x:.2f}"`: fixed two-decimal rendering of a confidence. -/
def fmt2 (q : ℚ) : String :=
  let n : ℤ := roundHalfEven (q * (100 : ℚ))
  let a : ℕ := n.natAbs
  let sign := if n < 0 then "-" else ""
  sign ++ toString (a / 100) ++ "." ++ (if a % 100 < 10 then "0" else "") ++ toString (a % 100)

/-- One entry of QualityValidationAgent._load_validation_criteria. -/
structure ValidationCriteria where
  required_specs : List String
  optional_specs : List String
  unit_options : List String
  min_specs_count : ℕ
deriving DecidableEq, Repr

/-- QualityValidationAgent._load_validation_criteria: the dictionary is
keyed by `ProductCategory` members themselves (unlike
`PRODUCT_CATEGORIES`), so lookups by category do succeed; `UNKNOWN` has
no entry. -/
def validationCriteria : ProductCategory → Option ValidationCriteria
  | .PRESSURE_SENSOR => some
    { required_specs := ["measurement_range", "accuracy_class", "output_signal"]
      optional_specs := ["protection_degree", "temperature_range", "material"]
      unit_options := ["штука", "шт", "шт."]
      min_specs_count := 5 }
  | .STEEL_CIRCLE => some
    { required_specs := ["diameter_mm", "steel_grade", "standard"]
      optional_specs := ["length", "hardness", "surface_quality"]
      unit_options := ["тонна", "т", "тн"]
      min_specs_count := 4 }
  | .HAMMER => some
    { required_specs := ["striker_weight_kg", "length_mm", "type"]
      optional_specs := ["handle_material", "standard", "brand"]
      unit_options := ["штука", "шт", "шт."]
      min_specs_count := 4 }
  | .TIRE => some
    { required_specs := ["width", "profile", "diameter", "season"]
      optional_specs := ["speed_index", "load_index", "brand", "model"]
      unit_options := ["штука", "шт", "шт."]
      min_specs_count := 5 }
  | .UNKNOWN => none

/-- The anchored pattern core `\d{2}\.\d{2}\.\d{2}(\.\d{3})?` as a full
match of a character list. -/
def okpd2FormatCore : List Char → Bool
  | [a, b, '.', c, d, '.', e, f] =>
    a.isDigit && b.isDigit && c.isDigit && d.isDigit && e.isDigit && f.isDigit
  | [a, b, '.', c, d, '.', e, f, '.', g, h, i] =>
    a.isDigit && b.isDigit && c.isDigit && d.isDigit && e.isDigit && f.isDigit &&
      g.isDigit && h.isDigit && i.isDigit
  | _ => false

/-- QualityValidationAgent._is_valid_okpd2_format:
`re.match(r'^\d{2}\.\d{2}\.\d{2}(\.\d{3})?$', code)`.  Python's `$` also
matches just before a single trailing newline, hence the second
disjunct. -/
def isValidOkpd2Format (code : String) : Bool :=
  okpd2FormatCore code.data ||
    (match code.data.getLast? with
     | some '\n' => okpd2FormatCore code.data.dropLast
     | _ => false)

/-- QualityValidationAgent._validate_okpd2.  The category-alignment check
is guarded by `if category in PRODUCT_CATEGORIES`, which compares the enum
member against string keys (see `enumEqStrKey`). -/
def validateOkpd2 (okpd2 : Option OKPD2Result) (category : ProductCategory) : List String :=
  match okpd2 with
  | none => ["Отсутствует код ОКПД2"]
  | some r =>
    (if isValidOkpd2Format r.code then [] else ["Неверный формат кода ОКПД2: " ++ r.code])
    ++ (if r.level < 3 then
        ["Недостаточный уровень детализации ОКПД2 (уровень " ++ toString r.level ++ ")"]
      else [])
    ++ (if r.confidence < Rat.divInt 1 2 then
        ["Низкая уверенность в коде ОКПД2 (" ++ fmt2 r.confidence ++ ")"]
      else [])
    ++ (if categoryInProductCategories category then
        (if ¬ startsWithB r.code (okpd2PrefixOf category "") then
          ["Код ОКПД2 " ++ r.code ++ " не соответствует категории " ++ category.value]
        else [])
      else [])

/-- The placeholder tokens of `_validate_specifications`. -/
def placeholderPatterns : List String := ["н/д", "n/a", "неизвестно", "unknown", "-", ""]

/-- QualityValidationAgent._validate_specifications. -/
def validateSpecifications (research : Option ResearchDict) (category : ProductCategory)
    (_product : Product) : List String :=
  match research with
  | none => ["Отсутствуют технические характеристики"]
  | some rd =>
    match validationCriteria category with
    | none => ["Нет критериев валидации для данной категории"]
    | some criteria =>
      let specs := rd.specifications
      let missing := criteria.required_specs.filter (fun req =>
        match alistLookup specs req with
        | none => true
        | some v => v = "")
      let missingIssue :=
        if ¬ missing.isEmpty then
          ["Отсутствуют обязательные характеристики: " ++ joinWith ", " missing]
        else []
      let actualCount := (specs.map (·.2)).countP (fun v => v ≠ "")
      let countIssue :=
        if actualCount < criteria.min_specs_count then
          ["Недостаточно характеристик (" ++ toString actualCount ++ " из минимум "
            ++ toString criteria.min_specs_count ++ ")"]
        else []
      let placeholders := (specs.filter
        (fun kv => placeholderPatterns.contains (pyLowerStr kv.2))).map (·.1)
      let placeholderIssue :=
        if ¬ placeholders.isEmpty then
          ["Найдены незаполненные характеристики: " ++ joinWith ", " placeholders]
        else []
      missingIssue ++ countIssue ++ placeholderIssue

/-- QualityValidationAgent._validate_unit. -/
def validateUnit (product : Product) (category : ProductCategory) : Option String :=
  match validationCriteria category with
  | none => none
  | some criteria =>
    if ¬ ((criteria.unit_options.map pyLowerStr).contains (pyLowerStr product.original_unit)) then
      some ("Единица измерения '" ++ product.original_unit ++ "' не соответствует категории "
        ++ category.value ++ ". Ожидается: " ++ joinWith ", " criteria.unit_options)
    else none

/-- The four `color_patterns` of `_check_variability`, searched
case-insensitively in the raw product name. -/
def colorPatterns : List (List Char → Bool) :=
  [seqSearch ["артикул".data, "цвет".data],
   seqSearch ["article".data, "color".data],
   seqSearch ["код".data, "цвет".data],
   seqSearch ["различ".data, "цвет".data]]

/-- QualityValidationAgent._check_variability. -/
def checkVariability (product : Product) (research : Option ResearchDict) : List String :=
  let colorIssue :=
    if colorPatterns.any (fun p => p (lowerL product.original_name.data)) then
      ["Обнаружена вариативность по цвету"]
    else []
  let sizeIssues :=
    match research with
    | some rd =>
      (["diameter", "width", "length", "size"].filter (fun fieldName =>
        let value := (alistLookup rd.specifications fieldName).getD ""
        ["-", "до", "от"].any (fun sep => containsB sep.data value.data))).map
        (fun fieldName => "Обнаружена вариативность по параметру: " ++ fieldName)
    | none => []
  colorIssue ++ sizeIssues

/-- The `generic_terms` of `_apply_business_rules`. -/
def genericTerms : List String := ["прочие", "другие", "разные", "various", "other", "misc"]

/-- QualityValidationAgent._apply_business_rules (`okpd2_result` is
accepted but unused by the source body as well). -/
def applyBusinessRules (product : Product) (research : Option ResearchDict)
    (_okpd2 : Option OKPD2Result) : List String :=
  let manufacturerIssue :=
    match research with
    | some rd =>
      (match rd.manufacturer with
       | none => ["Невозможно определить производителя"]
       | some m =>
         if m = "" || ["unknown", "неизвестно"].contains (pyLowerStr m) then
           ["Невозможно определить производителя"]
         else [])
    | none => []
  let modelIssue :=
    match research with
    | some rd =>
      (match rd.model with
       | some m => if m ≠ "" && m.length < 3 then ["Модель/артикул слишком короткий"] else []
       | none => [])
    | none => []
  let genericIssue :=
    if genericTerms.any (fun t => containsB t.data (lowerL product.original_name.data)) then
      ["Слишком общее описание продукта"]
    else []
  manufacturerIssue ++ modelIssue ++ genericIssue

/-- QualityValidationAgent._determine_rejection_reason.  The source is
only called with a non-empty issue list; the final fallback renders
`issues[0]`, modelled with `headD`. -/
def determineRejectionReason (issues : List String) : String :=
  if issues.any (fun i => containsB "ОКПД2".data i.data) then
    "Не подлежит нормализации: отсутствует код ОКПД2"
  else if issues.any (fun i => containsB "производител".data (lowerL i.data)) then
    "Не подлежит нормализации: невозможно определить производителя"
  else if issues.any (fun i => containsB "вариативность".data i.data) then
    (let joined := joinWith " " issues
     if containsB "цвет".data joined.data then
       "Не подлежит нормализации: артикул не соответствует цвету"
     else if containsB "диаметр".data joined.data || containsB "размер".data joined.data then
       "Не подлежит нормализации: вариативность по размеру"
     else "Не подлежит нормализации: вариативность характеристик")
  else if issues.any (fun i => containsB "характеристик".data i.data) then
    "Не подлежит нормализации: неполные технические характеристики"
  else "Не подлежит нормализации: " ++ issues.headD ""

/-- The fixed reasons produced by the non-fallback branches of
`_determine_rejection_reason`. -/
def canonicalReasons : List String :=
  ["Не подлежит нормализации: отсутствует код ОКПД2",
   "Не подлежит нормализации: невозможно определить производителя",
   "Не подлежит нормализации: артикул не соответствует цвету",
   "Не подлежит нормализации: вариативность по размеру",
   "Не подлежит нормализации: вариативность характеристик",
   "Не подлежит нормализации: неполные технические характеристики"]

/-- The fixed fallback suggestion list of `_generate_suggestions`. -/
def fallbackSuggestions : List String :=
  ["Уточнить информацию у поставщика", "Проверить каталог производителя"]

/-- QualityValidationAgent.process: run all checks in order, derive
validity, rejection reason and suggestions (the suggestion oracle is the
external LLM call; its failure falls back to `fallbackSuggestions`). -/
def validationProcess (product : Product) (research : Option ResearchDict)
    (okpd2 : Option OKPD2Result) (category : ProductCategory)
    (suggestOracle : Except String (List String)) : ValidationResult :=
  let issues :=
    (if category = .UNKNOWN then ["Не удалось определить категорию продукта"] else [])
    ++ validateOkpd2 okpd2 category
    ++ validateSpecifications research category product
    ++ (match validateUnit product category with | some i => [i] | none => [])
    ++ checkVariability product research
    ++ applyBusinessRules product research okpd2
  let is_valid := issues.isEmpty
  let rejection_reason :=
    if is_valid then none else some (determineRejectionReason issues)
  let suggestions :=
    if is_valid then []
    else (match suggestOracle with | .ok s => s | .error _ => fallbackSuggestions)
  { is_valid := is_valid
    issues := issues
    rejection_reason := rejection_reason
    suggestions := suggestions }

/-! ## Orchestrator (`src/processors/mtr_processor.py`)

The two external calls of a single-product pipeline (the research agent
and the OKPD2 candidate discovery) are oracle parameters returning
`Except`: an `error` models the awaited call raising after its bounded
retries.  Everything downstream of them (`_select_best_code`, the
validation agent, unit normalization, status assignment) is the embedded
pure code above.  File parsing and Excel/JSON output are external. -/

/-- The `unit_keys` mapping of `_get_normalized_unit` (keyed by the enum
itself, so lookups succeed). -/
def unitKeyOf : ProductCategory → Option String
  | .PRESSURE_SENSOR => some "датчик"
  | .STEEL_CIRCLE => some "круг"
  | .HAMMER => some "молоток"
  | .TIRE => some "шина"
  | .UNKNOWN => none

/-- MTRProcessor._get_normalized_unit: when the category's unit key is
configured and the original unit is (case-insensitively) one of the valid
units, return the first listed form (`valid_units[0]`); otherwise return
the original unit unchanged. -/
def getNormalizedUnit (product : Product) (category : ProductCategory) : String :=
  match unitKeyOf category with
  | some key =>
    (match alistLookup unitValidation key with
     | some validUnits =>
       if (validUnits.map pyLowerStr).contains (pyLowerStr product.original_unit) then
         validUnits.headD ""
       else product.original_unit
     | none => product.original_unit)
  | none => product.original_unit

/-- Python dictionary assignment `d[k] = v`: replace in place when the
key exists, append otherwise. -/
def dictSet (l : List (String × String)) (k : String) (v : String) : List (String × String) :=
  if (l.find? (fun kv => kv.1 = k)).isSome then
    l.map (fun kv => if kv.1 = k then (kv.1, v) else kv)
  else l ++ [(k, v)]

/-- MTRProcessor._process_single_product: the whole body runs in a
`try`; a raise from either external call turns the product into `FAILED`
with the message captured, everything else reaches `COMPLETED` or
`REJECTED` based on validation. -/
def processSingleProduct
    (research : Product → Except String ResearchDict)
    (findCandidates : Product → Except String (List Candidate))
    (suggestOracle : Except String (List String))
    (product : Product) (category : ProductCategory) : Product :=
  let p := { product with status := .PROCESSING }
  match research p with
  | .error e => { p with status := .FAILED, error_message := some e }
  | .ok researchResult =>
    match findCandidates p with
    | .error e => { p with status := .FAILED, error_message := some e }
    | .ok candidates =>
      let okpd2Result := selectBestCode candidates p category (some researchResult)
      let validationResult :=
        validationProcess p (some researchResult) (some okpd2Result) category suggestOracle
      let specs0 := researchResult.specifications
      let specs1 :=
        match researchResult.manufacturer with
        | some m => if m ≠ "" then dictSet specs0 "manufacturer" m else specs0
        | none => specs0
      let specs2 :=
        match researchResult.model with
        | some m => if m ≠ "" then dictSet specs1 "model" m else specs1
        | none => specs1
      let p := { p with
        specifications := specs2
        okpd2_code := some okpd2Result.code
        normalized_unit := some (getNormalizedUnit p category) }
      if validationResult.is_valid then
        { p with status := .COMPLETED, comment := some "Успешно нормализовано" }
      else
        { p with status := .REJECTED
                 comment := validationResult.rejection_reason
                 error_message := some (joinWith "; " validationResult.issues) }

/-- MTRProcessor._process_batch: items run under a concurrency
semaphore and are gathered with `return_exceptions=True`; `asyncio.gather`
returns results positionally, and `_process_single_product` catches every
`Exception` itself, so the `isinstance(result, Exception)` arm of the
source is unreachable and the batch output is the positional map of the
single-product pipeline. -/
def processBatch
    (research : Product → Except String ResearchDict)
    (findCandidates : Product → Except String (List Candidate))
    (suggestOracle : Except String (List String))
    (batchProducts : List Product) (category : ProductCategory) : List Product :=
  batchProducts.map (fun p => processSingleProduct research findCandidates suggestOracle p category)

/-- The per-product detection step of `_categorize_products` (categories
already set are kept). -/
def detectStep (product : Product) : Product :=
  if product.category = .UNKNOWN then
    let dc := detectCategory product.original_name
    { product with category := dc.1, confidence_score := dc.2 }
  else product

/-- Append a product to its category's group, keeping the dictionary's
key insertion order (`categorized[product.category].append(product)`). -/
def addToGroups (groups : List (ProductCategory × List Product)) (p : Product) :
    List (ProductCategory × List Product) :=
  if (groups.find? (fun g => g.1 = p.category)).isSome then
    groups.map (fun g => if g.1 = p.category then (g.1, g.2 ++ [p]) else g)
  else groups ++ [(p.category, [p])]

/-- MTRProcessor._categorize_products. -/
def categorizeProducts (products : List Product) : List (ProductCategory × List Product) :=
  (products.map detectStep).foldl addToGroups []

/-- Fixed-size chunking (`_create_batches`): `acc` accumulates the
current batch in reverse. -/
def chunksAux (n : ℕ) : List Product → List Product → List (List Product)
  | acc, [] => if acc.isEmpty then [] else [acc.reverse]
  | acc, p :: rest =>
    if acc.length + 1 = n then (p :: acc).reverse :: chunksAux n [] rest
    else chunksAux n (p :: acc) rest

/-- MTRProcessor._create_batches (only the product chunks; the batch
counters and identifiers carry no information used by the claims). -/
def createBatches (ps : List Product) : List (List Product) :=
  chunksAux batchSize [] ps

/-- The product-list core of MTRProcessor.process_file: categorize, then
for each category group (in key insertion order) build fixed-size batches
and process them sequentially, concatenating all per-batch results. -/
def processProducts
    (research : Product → Except String ResearchDict)
    (findCandidates : Product → Except String (List Candidate))
    (suggestOracle : Except String (List String))
    (products : List Product) : List Product :=
  (categorizeProducts products).flatMap (fun g =>
    (createBatches g.2).flatMap (fun b =>
      processBatch research findCandidates suggestOracle b g.1))

/-- A minimal product literal used by concrete evaluations below. -/
def mkProduct (code name unit : String) : Product :=
  { internal_code := code, original_name := name, original_unit := unit, category_name := "" }

/-! ## Helper lemmas -/

/-- True when no category other than `cat` has any keyword contained
(case-insensitively) in the name. -/
def otherCategoryKeywordAbsent (cat : ProductCategory) (name : String) : Bool :=
  knownCategories.all (fun c =>
    c == cat || (keywordsOf c).all (fun kw => !(containsB (lowerL kw.data) (lowerL name.data))))

/-- Stated from the amended claim wording of C3: score = level*0.2 (the
candidate's own level, else inferred as in `_get_code_level`: at least 3
segments with a non-"00" third segment give 4 for exactly 4 segments and
3 otherwise; else at least 2 segments with a non-"00" second segment give
2; else 1) plus min(0.3, 0.1 × count of product-name words longer than 3
characters contained case-insensitively in the candidate name) plus 0.2
when a non-empty research-supplied product-type string appears in the
candidate name.  No prefix bonus is ever added, because the
category-membership guard compares an enum member against string keys. -/
def amendedScore (candidate : Candidate) (product : Product)
    (_category : ProductCategory) (research : Option ResearchDict) : ℚ :=
  (((candidate.level.getD
      (let parts := splitDot candidate.code
       if 3 ≤ parts.length ∧ parts.getD 2 [] ≠ "00".data then
         (if parts.length = 4 then 4 else 3)
       else if 2 ≤ parts.length ∧ parts.getD 1 [] ≠ "00".data then 2 else 1)) : ℤ) : ℚ)
    * Rat.divInt 1 5
  + min (((pySplitWs (lowerL product.original_name.data)).countP
      (fun w => 3 < w.length && containsB w (lowerL candidate.name.data)) : ℚ) * Rat.divInt 1 10)
      (Rat.divInt 3 10)
  + (match research with
     | some rd =>
       match rd.product_type with
       | some t =>
         if t ≠ "" && containsB (lowerL t.data) (lowerL candidate.name.data) then Rat.divInt 1 5
         else 0
       | none => 0
     | none => 0)

/-- The identifiers a category group contributes when selecting one
category. -/
def groupIds (cat : ProductCategory) (g : ProductCategory × List Product) : List String :=
  if g.1 = cat then g.2.map (·.internal_code) else []

/-- A research oracle stub that always fails for internal code "B" and
succeeds otherwise. -/
def researchStub : Product → Except String ResearchDict :=
  fun q =>
    if q.internal_code = "B" then Except.error "boom"
    else Except.ok { product_name := q.original_name }

/-- A candidate-discovery stub returning no candidates. -/
def candidatesStub : Product → Except String (List Candidate) :=
  fun _ => Except.ok []

/-- Three products with interleaved categories (HAMMER, TIRE, HAMMER);
the middle one is engineered to fail. -/
def sampleProducts : List Product :=
  [{ mkProduct "A" "Молоток слесарный" "шт" with category := ProductCategory.HAMMER },
   { mkProduct "B" "Шина летняя" "шт" with category := ProductCategory.TIRE },
   { mkProduct "C" "Молоток кузнечный" "шт" with category := ProductCategory.HAMMER }]

/-- The valid unit list of a category: its `unit_keys` entry looked up in
`COMPLIANCE_RULES["unit_validation"]`. -/
def validUnitsOf (category : ProductCategory) : List String :=
  match unitKeyOf category with
  | some key => (alistLookup unitValidation key).getD []
  | none => []

/-! ## Theorems and checks -/

example : containsB "давлен".data "датчик давления".data = true := by decide

example : normalizeTextL "  Датчик ((давления))  ".data = "Датчик   давления".data := by decide

example : splitDot "26.51.52" = ["26".data, "51".data, "52".data] := by decide

example : pySplitWs "  круг  стальной ".data = ["круг".data, "стальной".data] := by decide

example : searchTireSize (lowerL "205/55 R16".data) = true := by decide

example : searchLitWsLit "pressure".data "sensor".data (lowerL "Pressure  Sensor X".data) = true := by decide

example : getCodeLevel "26.51.52.110" = 4 := by decide

example : getCodeLevel "26.51.00.110" = 2 := by decide

example : getCodeLevel "26.00.00" = 1 := by decide

example : getCodeLevel "26.51.52" = 3 := by decide

example : getParentCode "26.51.52.110" = some "26.51.52" := by decide

example : getParentCode "26" = none := by decide

example : claimedCodeLevel "26.51.00.110" = 4 := by decide

example : isValidOkpd2Format "26.51.52" = true := by decide

example : isValidOkpd2Format "26.51.52.110" = true := by decide

example : isValidOkpd2Format "26.51.5" = false := by decide

example : isValidOkpd2Format "26.51.52.11" = false := by decide

unseal Rat.mul in
example : fmt2 (Rat.divInt 1 10) = "0.10" := by decide

unseal Rat.mul in
example : fmt2 (Rat.divInt 3 10) = "0.30" := by decide

example :
    createBatches (List.replicate 12 (mkProduct "x" "n" "шт")) =
    [List.replicate 10 (mkProduct "x" "n" "шт"),
     List.replicate 2 (mkProduct "x" "n" "шт")] := by decide

/-- The executable substring test agrees with `List.IsInfix`. -/
theorem containsB_iff (n : List Char) : ∀ h : List Char, containsB n h = true ↔ n <:+: h := by
  intro h
  induction h with
  | nil =>
    simp [containsB, List.isEmpty_iff]
  | cons c r ih =>
    simp only [containsB, Bool.or_eq_true, ih, List.isPrefixOf_iff_prefix]
    exact (List.infix_cons_iff).symm

/-- The one-step maximum keeps a value at least as large as its first
argument. -/
theorem fst_le_maxPair (a b : ProductCategory × ℚ) : a.2 ≤ (maxPair a b).2 := by
  unfold maxPair
  split
  · exact le_of_lt (by assumption)
  · exact le_refl _

/-- The one-step maximum keeps a value at least as large as its second
argument. -/
theorem snd_le_maxPair (a b : ProductCategory × ℚ) : b.2 ≤ (maxPair a b).2 := by
  unfold maxPair
  split
  · exact le_refl _
  · exact le_of_not_lt (by assumption)

/-- Every scored pair is bounded by the fold of `maxPair`. -/
theorem le_foldl_maxPair :
    ∀ (tl : List (ProductCategory × ℚ)) (hd x : ProductCategory × ℚ),
      x ∈ hd :: tl → x.2 ≤ (tl.foldl maxPair hd).2
  | [], hd, x, hx => by
    rcases List.mem_cons.mp hx with rfl | hx2
    · exact le_refl _
    · cases hx2
  | y :: tl2, hd, x, hx => by
    simp only [List.foldl_cons]
    rcases List.mem_cons.mp hx with rfl | hx2
    · exact le_trans (fst_le_maxPair x y)
        (le_foldl_maxPair tl2 (maxPair x y) _ (List.mem_cons_self _ _))
    · rcases List.mem_cons.mp hx2 with rfl | hx3
      · exact le_trans (snd_le_maxPair hd x)
          (le_foldl_maxPair tl2 (maxPair hd x) _ (List.mem_cons_self _ _))
      · exact le_foldl_maxPair tl2 (maxPair hd y) x (List.mem_cons_of_mem _ hx3)

/-- The fold of `maxPair` returns one of the list's elements. -/
theorem foldl_maxPair_mem :
    ∀ (tl : List (ProductCategory × ℚ)) (hd : ProductCategory × ℚ),
      (tl.foldl maxPair hd) ∈ hd :: tl
  | [], hd => List.mem_cons_self _ _
  | y :: tl2, hd => by
    simp only [List.foldl_cons]
    have hrec := foldl_maxPair_mem tl2 (maxPair hd y)
    rcases List.mem_cons.mp hrec with heq | hmem
    · rw [heq]
      unfold maxPair
      split
      · exact List.mem_cons_of_mem _ (List.mem_cons_self _ _)
      · exact List.mem_cons_self _ _
    · exact List.mem_cons_of_mem _ (List.mem_cons_of_mem _ hmem)

/-- Collapsing a fully-whitespace tail inside a run yields nothing. -/
theorem collapseWsAux_true_all_space :
    ∀ l : List Char, (∀ c ∈ l, pyIsSpace c) → collapseWsAux true l = []
  | [], _ => rfl
  | c :: rest, h => by
    have hc : pyIsSpace c := h c (List.mem_cons_self _ _)
    simp only [collapseWsAux, hc, if_true]
    exact collapseWsAux_true_all_space rest (fun d hd => h d (List.mem_cons_of_mem _ hd))

/-- Collapsing a fully-whitespace text yields at most one space. -/
theorem collapseWs_all_space (l : List Char) (h : ∀ c ∈ l, pyIsSpace c) :
    collapseWs l = if l.isEmpty then [] else [' '] := by
  cases l with
  | nil => rfl
  | cons c rest =>
    have hc : pyIsSpace c := h c (List.mem_cons_self _ _)
    simp only [collapseWs, collapseWsAux, hc, if_true, List.isEmpty_cons, if_false]
    rw [collapseWsAux_true_all_space rest (fun d hd => h d (List.mem_cons_of_mem _ hd))]

/-- Normalizing a fully-whitespace text yields the empty text. -/
theorem normalizeTextL_all_space (l : List Char) (h : ∀ c ∈ l, pyIsSpace c) :
    normalizeTextL l = [] := by
  unfold normalizeTextL
  rw [collapseWs_all_space l h]
  by_cases he : l.isEmpty
  · simp [he]; rfl
  · simp [he]; rfl

unseal Rat.add Rat.mul in
/-- Every category scores zero on the empty normalized text. -/
theorem categoryScore_nil (c : ProductCategory) : categoryScore [] c = 0 := by
  cases c <;> decide

/-- On a fully-whitespace name the winning pair is the first-declared
category with score zero. -/
theorem bestPair_of_blank (l : List Char) (h : ∀ c ∈ l, pyIsSpace c) :
    bestPair l = (ProductCategory.PRESSURE_SENSOR, 0) := by
  unfold bestPair scoredPairs
  rw [normalizeTextL_all_space l h]
  simp [knownCategories, categoryScore_nil, List.foldl, maxPair]

/-- Claim C9: category detection returns `UNKNOWN` exactly for the empty
name and for names whose maximum category score is below 0.3; the empty
or blank name yields `(UNKNOWN, 0.0)`, a below-threshold name yields
`(UNKNOWN, score)`, and otherwise the maximum-scoring category is
returned with its score as the confidence. -/
theorem detect_category_threshold_spec (name : String) :
    detectCategory name =
      (if maxCategoryScore name < Rat.divInt 3 10 then ProductCategory.UNKNOWN
       else bestCategory name, maxCategoryScore name)
    ∧ ((detectCategory name).1 = ProductCategory.UNKNOWN ↔
        name = "" ∨ maxCategoryScore name < Rat.divInt 3 10)
    ∧ (name = "" → detectCategory name = (ProductCategory.UNKNOWN, 0))
    ∧ ((∀ c ∈ name.data, pyIsSpace c) → detectCategory name = (ProductCategory.UNKNOWN, 0))
    ∧ bestCategory name ≠ ProductCategory.UNKNOWN
    ∧ categoryScore (normalizeTextL name.data) (bestCategory name) = maxCategoryScore name
    ∧ (∀ c ∈ knownCategories, categoryScore (normalizeTextL name.data) c ≤ maxCategoryScore name) := by
  have hfold : bestPair name.data =
      List.foldl maxPair
        (ProductCategory.PRESSURE_SENSOR,
          categoryScore (normalizeTextL name.data) ProductCategory.PRESSURE_SENSOR)
        [(ProductCategory.STEEL_CIRCLE,
          categoryScore (normalizeTextL name.data) ProductCategory.STEEL_CIRCLE),
         (ProductCategory.HAMMER,
          categoryScore (normalizeTextL name.data) ProductCategory.HAMMER),
         (ProductCategory.TIRE,
          categoryScore (normalizeTextL name.data) ProductCategory.TIRE)] := by
    simp [bestPair, scoredPairs, knownCategories]
  have hmem := foldl_maxPair_mem
    [(ProductCategory.STEEL_CIRCLE,
      categoryScore (normalizeTextL name.data) ProductCategory.STEEL_CIRCLE),
     (ProductCategory.HAMMER,
      categoryScore (normalizeTextL name.data) ProductCategory.HAMMER),
     (ProductCategory.TIRE,
      categoryScore (normalizeTextL name.data) ProductCategory.TIRE)]
    (ProductCategory.PRESSURE_SENSOR,
      categoryScore (normalizeTextL name.data) ProductCategory.PRESSURE_SENSOR)
  rw [← hfold] at hmem
  have hbest : bestCategory name ≠ ProductCategory.UNKNOWN ∧
      categoryScore (normalizeTextL name.data) (bestCategory name) = maxCategoryScore name := by
    unfold bestCategory maxCategoryScore
    rcases List.mem_cons.mp hmem with he | hm
    · rw [he]; exact ⟨by simp, rfl⟩
    · rcases List.mem_cons.mp hm with he | hm2
      · rw [he]; exact ⟨by simp, rfl⟩
      · rcases List.mem_cons.mp hm2 with he | hm3
        · rw [he]; exact ⟨by simp, rfl⟩
        · rcases List.mem_cons.mp hm3 with he | hm4
          · rw [he]; exact ⟨by simp, rfl⟩
          · cases hm4
  have hbound : ∀ c ∈ knownCategories,
      categoryScore (normalizeTextL name.data) c ≤ maxCategoryScore name := by
    intro c hc
    unfold maxCategoryScore
    rw [hfold]
    fin_cases hc
    · exact le_foldl_maxPair _ _ _ (List.mem_cons_self _ _)
    · exact le_foldl_maxPair _ _ _
        (List.mem_cons_of_mem _ (List.mem_cons_self _ _))
    · exact le_foldl_maxPair _ _ _
        (List.mem_cons_of_mem _ (List.mem_cons_of_mem _ (List.mem_cons_self _ _)))
    · exact le_foldl_maxPair _ _ _
        (List.mem_cons_of_mem _ (List.mem_cons_of_mem _
          (List.mem_cons_of_mem _ (List.mem_cons_self _ _))))
  by_cases hn : name = ""
  · subst hn
    have hms : maxCategoryScore "" = 0 := by
      unfold maxCategoryScore
      rw [bestPair_of_blank [] (by intro c hc; cases hc)]
    have hdet : detectCategory "" = (ProductCategory.UNKNOWN, 0) := by decide
    refine ⟨?_, ?_, fun _ => hdet, fun _ => hdet, hbest.1, hbest.2, hbound⟩
    · rw [hdet, hms, if_pos (by decide)]
    · rw [hdet, hms]
      simp
  · have hdata : ¬ name.data.isEmpty := by
      intro hab
      exact hn (String.ext (List.isEmpty_iff.mp hab))
    have hdet : detectCategory name =
        (if maxCategoryScore name < Rat.divInt 3 10 then ProductCategory.UNKNOWN
         else bestCategory name, maxCategoryScore name) := by
      unfold detectCategory detectCategoryL
      rw [if_neg (by simp [hdata])]
      show (if (bestPair name.data).2 < Rat.divInt 3 10 then
          (ProductCategory.UNKNOWN, (bestPair name.data).2) else bestPair name.data) = _
      unfold maxCategoryScore bestCategory
      split
      · rfl
      · rfl
    refine ⟨hdet, ?_, fun hab => absurd hab hn, ?_, hbest.1, hbest.2, hbound⟩
    · rw [hdet]
      constructor
      · intro hu
        by_cases hlt : maxCategoryScore name < Rat.divInt 3 10
        · exact Or.inr hlt
        · rw [if_neg hlt] at hu
          exact absurd hu hbest.1
      · rintro (rfl | hlt)
        · exact absurd rfl hn
        · rw [if_pos hlt]
    · intro hblank
      have hms : maxCategoryScore name = 0 := by
        unfold maxCategoryScore
        rw [bestPair_of_blank name.data hblank]
      rw [hdet, hms, if_pos (by decide)]

/-- Lowering does not change whitespace-ness. -/
theorem pyIsSpace_pyLower (c : Char) : pyIsSpace (pyLower c) = pyIsSpace c := by
  unfold pyLower
  split <;> rfl

/-- Lowering does not change membership in the kept character set. -/
theorem keptChar_pyLower (c : Char) : keptChar (pyLower c) = keptChar c := by
  unfold pyLower
  split <;> rfl

/-- Lowering commutes with the special-character substitution. -/
theorem replChar_pyLower (c : Char) : replChar (pyLower c) = pyLower (replChar c) := by
  unfold replChar
  rw [keptChar_pyLower]
  by_cases h : keptChar c
  · simp [h]
  · simp [h]; rfl

/-- Lowering commutes with whitespace collapsing. -/
theorem collapse_lower_comm : ∀ (l : List Char) (b : Bool),
    collapseWsAux b (lowerL l) = lowerL (collapseWsAux b l)
  | [], _ => rfl
  | c :: rest, b => by
    have ihT := collapse_lower_comm rest true
    have ihF := collapse_lower_comm rest false
    simp only [lowerL] at ihT ihF ⊢
    by_cases h : pyIsSpace c <;>
      cases b <;>
        simp [List.map_cons, collapseWsAux, pyIsSpace_pyLower, h, ihT, ihF,
          show pyLower ' ' = ' ' from rfl]

/-- Lowering commutes with dropping leading whitespace. -/
theorem dropSpace_lower_comm : ∀ l : List Char,
    (lowerL l).dropWhile pyIsSpace = lowerL (l.dropWhile pyIsSpace)
  | [] => rfl
  | c :: rest => by
    have ih := dropSpace_lower_comm rest
    simp only [lowerL] at ih ⊢
    by_cases h : pyIsSpace c <;>
      simp [List.dropWhile_cons, pyIsSpace_pyLower, h, ih]

/-- Lowering commutes with stripping. -/
theorem strip_lower_comm (l : List Char) : pyStripL (lowerL l) = lowerL (pyStripL l) := by
  unfold pyStripL
  rw [dropSpace_lower_comm]
  rw [show (lowerL (l.dropWhile pyIsSpace)).reverse = lowerL (l.dropWhile pyIsSpace).reverse
    from (List.map_reverse _ _).symm]
  rw [dropSpace_lower_comm]
  exact (List.map_reverse _ _).symm

/-- Lowering commutes with the special-character substitution on lists. -/
theorem repl_lower_comm (l : List Char) :
    (lowerL l).map replChar = lowerL (l.map replChar) := by
  simp only [lowerL, List.map_map]
  exact List.map_congr_left (fun c _ => replChar_pyLower c)

/-- Lowering commutes with the full text normalization. -/
theorem normalize_lower_comm (l : List Char) :
    normalizeTextL (lowerL l) = lowerL (normalizeTextL l) := by
  unfold normalizeTextL collapseWs
  rw [collapse_lower_comm, repl_lower_comm, strip_lower_comm]

/-- A prefix without whitespace characters survives whitespace collapsing
as a prefix. -/
theorem pre_through_collapse : ∀ (k l : List Char), (∀ c ∈ k, ¬ pyIsSpace c) →
    k <+: l → ∀ b, k <+: collapseWsAux b l
  | [], l, _, _, b => ⟨collapseWsAux b l, rfl⟩
  | a :: k2, l, hns, hpre, b => by
    obtain ⟨t, ht⟩ := hpre
    have ha : ¬ pyIsSpace a := hns a (List.mem_cons_self _ _)
    subst ht
    rw [show ((a :: k2) ++ t) = a :: (k2 ++ t) from rfl]
    rw [show collapseWsAux b (a :: (k2 ++ t)) = a :: collapseWsAux false (k2 ++ t) from by
      simp [collapseWsAux, ha]]
    obtain ⟨u, hu⟩ := pre_through_collapse k2 (k2 ++ t)
      (fun c hc => hns c (List.mem_cons_of_mem _ hc)) ⟨t, rfl⟩ false
    exact ⟨u, by rw [List.cons_append, hu]⟩

/-- An infix without whitespace characters survives whitespace
collapsing. -/
theorem inf_through_collapse : ∀ (l k : List Char), (∀ c ∈ k, ¬ pyIsSpace c) →
    k <:+: l → ∀ b, k <:+: collapseWsAux b l
  | [], k, _, hinf, b => by
    obtain ⟨s, t, hst⟩ := hinf
    obtain ⟨h1, -⟩ := List.append_eq_nil.mp hst
    obtain ⟨-, h2⟩ := List.append_eq_nil.mp h1
    subst h2
    exact ⟨[], [], rfl⟩
  | c :: rest, k, hns, hinf, b => by
    rcases List.infix_cons_iff.mp hinf with hpre | hrest
    · obtain ⟨u, hu⟩ := pre_through_collapse k (c :: rest) hns hpre b
      exact ⟨[], u, by rw [List.nil_append, hu]⟩
    · have hrec := inf_through_collapse rest k hns hrest
      by_cases h : pyIsSpace c
      · cases b
        · rw [show collapseWsAux false (c :: rest) = ' ' :: collapseWsAux true rest from by
            simp [collapseWsAux, h]]
          obtain ⟨s, t, hst⟩ := hrec true
          exact ⟨' ' :: s, t, by rw [← hst]; rfl⟩
        · rw [show collapseWsAux true (c :: rest) = collapseWsAux true rest from by
            simp [collapseWsAux, h]]
          exact hrec true
      · rw [show collapseWsAux b (c :: rest) = c :: collapseWsAux false rest from by
          simp [collapseWsAux, h]]
        obtain ⟨s, t, hst⟩ := hrec false
        exact ⟨c :: s, t, by rw [← hst]; rfl⟩

/-- An infix without whitespace characters survives dropping leading
whitespace. -/
theorem inf_through_dropSpace : ∀ (l k : List Char), (∀ c ∈ k, ¬ pyIsSpace c) →
    k <:+: l → k <:+: l.dropWhile pyIsSpace
  | [], _, _, hinf => by rwa [List.dropWhile_nil]
  | c :: rest, k, hns, hinf => by
    by_cases h : pyIsSpace c
    · rw [List.dropWhile_cons, if_pos h]
      rcases List.infix_cons_iff.mp hinf with hpre | hrest
      · cases k with
        | nil => exact ⟨[], rest.dropWhile pyIsSpace, rfl⟩
        | cons a k2 =>
          obtain ⟨t, ht⟩ := hpre
          have hac : a = c := (List.cons.injEq _ _ _ _ ▸ ht).1
          exact absurd (hac ▸ h) (hns a (List.mem_cons_self _ _))
      · exact inf_through_dropSpace rest k hns hrest
    · rwa [List.dropWhile_cons, if_neg h]

/-- Reversal keeps the infix relation. -/
theorem inf_reverse {k l : List Char} (h : k <:+: l) : k.reverse <:+: l.reverse := by
  obtain ⟨s, t, hst⟩ := h
  exact ⟨t.reverse, s.reverse, by rw [← hst]; simp [List.reverse_append, List.append_assoc]⟩

/-- An infix without whitespace characters survives stripping. -/
theorem inf_through_strip (l k : List Char) (hns : ∀ c ∈ k, ¬ pyIsSpace c)
    (h : k <:+: l) : k <:+: pyStripL l := by
  unfold pyStripL
  have h1 := inf_through_dropSpace l k hns h
  have h2 := inf_reverse h1
  have hns2 : ∀ c ∈ k.reverse, ¬ pyIsSpace c := fun c hc => hns c (List.mem_reverse.mp hc)
  have h3 := inf_through_dropSpace _ k.reverse hns2 h2
  have h4 := inf_reverse h3
  rwa [List.reverse_reverse] at h4

/-- An infix of kept characters survives the special-character
substitution. -/
theorem inf_through_repl (l k : List Char) (hk : ∀ c ∈ k, keptChar c = true)
    (h : k <:+: l) : k <:+: l.map replChar := by
  have hmap := h.map replChar
  have hid : k.map replChar = k := by
    conv_rhs => rw [← List.map_id k]
    exact List.map_congr_left (fun c hc => by unfold replChar; rw [if_pos (hk c hc)]; rfl)
  rwa [hid] at hmap

/-- A word-character infix with no whitespace survives the full detector
normalization. -/
theorem inf_through_normalize (l k : List Char)
    (hw : ∀ c ∈ k, pyIsWordChar c = true) (hns : ∀ c ∈ k, ¬ pyIsSpace c)
    (h : k <:+: l) : k <:+: normalizeTextL l := by
  unfold normalizeTextL collapseWs
  have h1 := inf_through_collapse l k hns h false
  have hkept : ∀ c ∈ k, keptChar c = true := fun c hc => by
    unfold keptChar
    simp [hw c hc]
  have h2 := inf_through_repl _ k hkept h1
  exact inf_through_strip _ k hns h2

/-- Two distinct members satisfying a predicate force a count of at
least two. -/
theorem two_le_countP {α : Type} (p : α → Bool) :
    ∀ (l : List α) (a b : α), a ∈ l → b ∈ l → a ≠ b →
      p a = true → p b = true → 2 ≤ l.countP p := by
  intro l
  induction l with
  | nil => intro a b ha; cases ha
  | cons x xs ih =>
    intro a b ha hb hne hpa hpb
    rw [List.countP_cons]
    rcases List.mem_cons.mp ha with rfl | ha2
    · rcases List.mem_cons.mp hb with rfl | hb2
      · exact absurd rfl hne
      · have h1 : 0 < xs.countP p := List.countP_pos_iff.mpr ⟨b, hb2, hpb⟩
        simp only [hpa, if_true]
        omega
    · rcases List.mem_cons.mp hb with rfl | hb2
      · have h1 : 0 < xs.countP p := List.countP_pos_iff.mpr ⟨a, ha2, hpa⟩
        simp only [hpb, if_true]
        omega
      · have h2 := ih a b ha2 hb2 hne hpa hpb
        have : (0:ℕ) ≤ if p x then 1 else 0 := by positivity
        omega

/-- Every configured keyword lowers to a non-empty list of
non-whitespace word characters. -/
theorem keyword_chars (cat : ProductCategory) :
    ∀ kw ∈ keywordsOf cat,
      lowerL kw.data ≠ [] ∧
        ∀ c ∈ lowerL kw.data, pyIsWordChar c = true ∧ ¬ pyIsSpace c := by
  cases cat <;> decide

/-- The winning pair is one of the four scored categories. -/
theorem bestPair_elem (name : String) :
    ∃ c ∈ knownCategories,
      bestPair name.data = (c, categoryScore (normalizeTextL name.data) c) := by
  have hfold : bestPair name.data =
      List.foldl maxPair
        (ProductCategory.PRESSURE_SENSOR,
          categoryScore (normalizeTextL name.data) ProductCategory.PRESSURE_SENSOR)
        [(ProductCategory.STEEL_CIRCLE,
          categoryScore (normalizeTextL name.data) ProductCategory.STEEL_CIRCLE),
         (ProductCategory.HAMMER,
          categoryScore (normalizeTextL name.data) ProductCategory.HAMMER),
         (ProductCategory.TIRE,
          categoryScore (normalizeTextL name.data) ProductCategory.TIRE)] := by
    simp [bestPair, scoredPairs, knownCategories]
  have hmem := foldl_maxPair_mem
    [(ProductCategory.STEEL_CIRCLE,
      categoryScore (normalizeTextL name.data) ProductCategory.STEEL_CIRCLE),
     (ProductCategory.HAMMER,
      categoryScore (normalizeTextL name.data) ProductCategory.HAMMER),
     (ProductCategory.TIRE,
      categoryScore (normalizeTextL name.data) ProductCategory.TIRE)]
    (ProductCategory.PRESSURE_SENSOR,
      categoryScore (normalizeTextL name.data) ProductCategory.PRESSURE_SENSOR)
  rw [← hfold] at hmem
  rcases List.mem_cons.mp hmem with he | hm
  · exact ⟨_, by decide, he⟩
  · rcases List.mem_cons.mp hm with he | hm2
    · exact ⟨_, by decide, he⟩
    · rcases List.mem_cons.mp hm2 with he | hm3
      · exact ⟨_, by decide, he⟩
      · rcases List.mem_cons.mp hm3 with he | hm4
        · exact ⟨_, by decide, he⟩
        · cases hm4

/-- The threshold comparison never sees `UNKNOWN` as the winner. -/
theorem bestCategory_known (name : String) :
    bestCategory name ≠ ProductCategory.UNKNOWN := by
  obtain ⟨c, hc, he⟩ := bestPair_elem name
  unfold bestCategory
  rw [he]
  fin_cases hc <;> simp

/-- Every known category's score is bounded by the winning score. -/
theorem score_le_max (name : String) (c : ProductCategory) (hc : c ∈ knownCategories) :
    categoryScore (normalizeTextL name.data) c ≤ maxCategoryScore name := by
  have hfold : bestPair name.data =
      List.foldl maxPair
        (ProductCategory.PRESSURE_SENSOR,
          categoryScore (normalizeTextL name.data) ProductCategory.PRESSURE_SENSOR)
        [(ProductCategory.STEEL_CIRCLE,
          categoryScore (normalizeTextL name.data) ProductCategory.STEEL_CIRCLE),
         (ProductCategory.HAMMER,
          categoryScore (normalizeTextL name.data) ProductCategory.HAMMER),
         (ProductCategory.TIRE,
          categoryScore (normalizeTextL name.data) ProductCategory.TIRE)] := by
    simp [bestPair, scoredPairs, knownCategories]
  unfold maxCategoryScore
  rw [hfold]
  fin_cases hc
  · exact le_foldl_maxPair _ _ _ (List.mem_cons_self _ _)
  · exact le_foldl_maxPair _ _ _ (List.mem_cons_of_mem _ (List.mem_cons_self _ _))
  · exact le_foldl_maxPair _ _ _
      (List.mem_cons_of_mem _ (List.mem_cons_of_mem _ (List.mem_cons_self _ _)))
  · exact le_foldl_maxPair _ _ _
      (List.mem_cons_of_mem _ (List.mem_cons_of_mem _
        (List.mem_cons_of_mem _ (List.mem_cons_self _ _))))

/-- Claim C8: for every known category, a product name that contains at
least two of that category's declared keywords (case-insensitively) and
no other category's keywords is detected with confidence at least 0.3, so
the detector does not fall back to `UNKNOWN`. -/
theorem detect_category_two_keywords
    (cat : ProductCategory) (name k1 k2 : String)
    (hcat : cat ≠ ProductCategory.UNKNOWN)
    (hk1 : k1 ∈ keywordsOf cat) (hk2 : k2 ∈ keywordsOf cat) (hne : k1 ≠ k2)
    (hc1 : containsB (lowerL k1.data) (lowerL name.data) = true)
    (hc2 : containsB (lowerL k2.data) (lowerL name.data) = true)
    (_hother : otherCategoryKeywordAbsent cat name = true) :
    (detectCategory name).1 ≠ ProductCategory.UNKNOWN ∧
      Rat.divInt 3 10 ≤ (detectCategory name).2 := by
  obtain ⟨hne1, hcls1⟩ := keyword_chars cat k1 hk1
  obtain ⟨hne2, hcls2⟩ := keyword_chars cat k2 hk2
  have hsurv : ∀ kw : String, lowerL kw.data ≠ [] →
      (∀ c ∈ lowerL kw.data, pyIsWordChar c = true ∧ ¬ pyIsSpace c) →
      containsB (lowerL kw.data) (lowerL name.data) = true →
      containsB (lowerL kw.data) (lowerL (normalizeTextL name.data)) = true := by
    intro kw _ hcls hcont
    have h1 := (containsB_iff _ _).mp hcont
    have h2 := inf_through_normalize (lowerL name.data) (lowerL kw.data)
      (fun c hc => (hcls c hc).1) (fun c hc => (hcls c hc).2) h1
    rw [normalize_lower_comm] at h2
    exact (containsB_iff _ _).mpr h2
  have hs1 := hsurv k1 hne1 hcls1 hc1
  have hs2 := hsurv k2 hne2 hcls2 hc2
  have hcount : 2 ≤ (keywordsOf cat).countP
      (fun kw => containsB (lowerL kw.data) (lowerL (normalizeTextL name.data))) :=
    two_le_countP _ _ k1 k2 hk1 hk2 hne hs1 hs2
  have hscore : Rat.divInt 3 10 ≤ categoryScore (normalizeTextL name.data) cat := by
    unfold categoryScore
    apply le_min
    · have hcast : (2:ℚ) ≤ ((keywordsOf cat).countP
          (fun kw => containsB (lowerL kw.data) (lowerL (normalizeTextL name.data))) : ℚ) := by
        exact_mod_cast hcount
      have hp : (0:ℚ) ≤ ((patternsFor cat).countP
          (fun p => p (lowerL (normalizeTextL name.data))) : ℚ) := Nat.cast_nonneg _
      have h1 : (0:ℚ) ≤ ((patternsFor cat).countP
          (fun p => p (lowerL (normalizeTextL name.data))) : ℚ) * Rat.divInt 3 10 :=
        mul_nonneg hp (by norm_num [Rat.divInt_eq_div])
      have h2 : (2:ℚ) * Rat.divInt 1 5 ≤ ((keywordsOf cat).countP
          (fun kw => containsB (lowerL kw.data) (lowerL (normalizeTextL name.data))) : ℚ)
            * Rat.divInt 1 5 :=
        mul_le_mul_of_nonneg_right hcast (by norm_num [Rat.divInt_eq_div])
      simp only [Rat.divInt_eq_div] at h1 h2 ⊢
      push_cast at h1 h2 ⊢
      linarith
    · norm_num [Rat.divInt_eq_div]
  have hcatmem : cat ∈ knownCategories := by
    cases cat <;> first | exact absurd rfl hcat | decide
  have hge : Rat.divInt 3 10 ≤ maxCategoryScore name :=
    le_trans hscore (score_le_max name cat hcatmem)
  have hthr : ¬ (maxCategoryScore name < Rat.divInt 3 10) := not_lt.mpr hge
  have hdata : ¬ name.data.isEmpty := by
    intro hab
    have hnil : name.data = [] := List.isEmpty_iff.mp hab
    rw [hnil] at hc1
    rw [show lowerL ([] : List Char) = [] from rfl] at hc1
    rw [show containsB (lowerL k1.data) [] = (lowerL k1.data).isEmpty from rfl] at hc1
    exact hne1 (List.isEmpty_iff.mp hc1)
  have hdet : detectCategory name = bestPair name.data := by
    unfold detectCategory detectCategoryL
    rw [if_neg (by simp [hdata])]
    show (if (bestPair name.data).2 < Rat.divInt 3 10 then
        (ProductCategory.UNKNOWN, (bestPair name.data).2) else bestPair name.data) = _
    exact if_neg hthr
  constructor
  · rw [hdet]
    exact bestCategory_known name
  · rw [hdet]
    exact hge

unseal Rat.add Rat.mul in
/-- Witness for claim C8 at a concrete input: the name "молот hammer"
contains both HAMMER keywords and no other category's keywords. -/
theorem detect_category_two_keywords_witness :
    (detectCategory "молот hammer").1 ≠ ProductCategory.UNKNOWN ∧
      Rat.divInt 3 10 ≤ (detectCategory "молот hammer").2 :=
  detect_category_two_keywords ProductCategory.HAMMER "молот hammer" "молот" "hammer"
    (by decide) (by decide) (by decide) (by decide) (by decide) (by decide) (by decide)

unseal Rat.add Rat.mul in
/-- Witness for claim C9 at concrete inputs: the empty name and a blank
name both yield `(UNKNOWN, 0.0)`. -/
theorem detect_category_threshold_spec_witness :
    detectCategory "" = (ProductCategory.UNKNOWN, 0) ∧
      detectCategory "   " = (ProductCategory.UNKNOWN, 0) :=
  ⟨(detect_category_threshold_spec "").2.2.1 rfl,
   (detect_category_threshold_spec "   ").2.2.2.1 (by decide)⟩

/-- Claim C1 (behavior the code actually has): with an empty candidate
list the selector returns the `"00.00.00"`/level-1/confidence-0.1
fallback for every category — including the known ones, because the
guard `category in PRODUCT_CATEGORIES` compares the plain-`Enum` member
against the dictionary's string keys and never succeeds, so the
configured default-prefix branch is unreachable. -/
theorem select_best_code_empty (product : Product) (category : ProductCategory)
    (research : Option ResearchDict) :
    selectBestCode [] product category research =
      { code := "00.00.00", name := "Unclassified product", level := 1,
        parent_code := none, confidence := Rat.divInt 1 10, alternative_codes := [] } := rfl

unseal Rat.add Rat.mul in
/-- Counterexample for claim C3: at concrete inputs the claimed score
differs from the code's score.  First input: a level-4 candidate whose
code carries the category's expected prefix — the claim adds the 0.3
prefix bonus, the code does not (its category-membership guard never
passes).  Second input: a four-segment code with a "00" third segment and
no explicit level — the claim infers level 4, the code infers level 2. -/
theorem score_candidate_counterexample :
    claimedScore { code := "26.51.52.110", name := "candidate", level := some 4 }
        (mkProduct "P" "xyz" "шт") ProductCategory.PRESSURE_SENSOR none ≠
      scoreCandidate { code := "26.51.52.110", name := "candidate", level := some 4 }
        (mkProduct "P" "xyz" "шт") ProductCategory.PRESSURE_SENSOR none ∧
    claimedScore { code := "26.51.00.110", name := "candidate", level := none }
        (mkProduct "P" "xyz" "шт") ProductCategory.PRESSURE_SENSOR none ≠
      scoreCandidate { code := "26.51.00.110", name := "candidate", level := none }
        (mkProduct "P" "xyz" "шт") ProductCategory.PRESSURE_SENSOR none := by
  decide

/-- Amended claim C3: the code's candidate score equals the amended
formula (no prefix bonus; level inference as in `_get_code_level`). -/
theorem score_candidate_amended (candidate : Candidate) (product : Product)
    (category : ProductCategory) (research : Option ResearchDict) :
    scoreCandidate candidate product category research =
      amendedScore candidate product category research := by
  unfold scoreCandidate amendedScore getCodeLevel categoryInProductCategories enumEqStrKey
  simp [PRODUCT_CATEGORIES]

/-- Claim C4 (behavior the code actually has): the missing-classification
issue and the format, level and confidence issues are emitted exactly as
specified, but the expected-prefix issue is never emitted — its guard
`category in PRODUCT_CATEGORIES` compares the enum member against string
keys — so even a known category with a non-matching code yields no
prefix-mismatch issue (third conjunct, at the concrete failing input). -/
theorem validate_okpd2_spec :
    (∀ category : ProductCategory, validateOkpd2 none category = ["Отсутствует код ОКПД2"])
    ∧ (∀ (r : OKPD2Result) (category : ProductCategory),
        validateOkpd2 (some r) category =
          (if isValidOkpd2Format r.code then []
           else ["Неверный формат кода ОКПД2: " ++ r.code])
          ++ (if r.level < 3 then
              ["Недостаточный уровень детализации ОКПД2 (уровень " ++ toString r.level ++ ")"]
            else [])
          ++ (if r.confidence < Rat.divInt 1 2 then
              ["Низкая уверенность в коде ОКПД2 (" ++ fmt2 r.confidence ++ ")"]
            else []))
    ∧ validateOkpd2
        (some { code := "99.99.99", name := "x", level := 3, confidence := Rat.divInt 9 10 })
        ProductCategory.PRESSURE_SENSOR = [] := by
  refine ⟨fun _ => rfl, ?_, by decide⟩
  intro r category
  unfold validateOkpd2 categoryInProductCategories enumEqStrKey
  simp [PRODUCT_CATEGORIES]

/-- Claim C5: whenever some issue mentions the OKPD2 code, the computed
rejection reason is the fixed classification-code reason, regardless of
any manufacturer issue (priority (a) beats (b)). -/
theorem rejection_priority_okpd2 (issues : List String)
    (hcode : ∃ i ∈ issues, containsB "ОКПД2".data i.data = true)
    (_hman : ∃ j ∈ issues, containsB "производител".data (lowerL j.data) = true) :
    determineRejectionReason issues = "Не подлежит нормализации: отсутствует код ОКПД2" := by
  obtain ⟨i, hi, hc⟩ := hcode
  unfold determineRejectionReason
  rw [if_pos (List.any_eq_true.mpr ⟨i, hi, hc⟩)]

/-- Witness for claim C5 at a concrete issue list containing both a
classification-code issue and a manufacturer issue. -/
theorem rejection_priority_okpd2_witness :
    determineRejectionReason
        ["Отсутствует код ОКПД2", "Невозможно определить производителя"] =
      "Не подлежит нормализации: отсутствует код ОКПД2" :=
  rejection_priority_okpd2 _ (by decide) (by decide)

/-- The computed rejection reason is always a canonical fixed reason or
the first issue behind the generic rejection marker. -/
theorem determineRejectionReason_shape (issues : List String) :
    determineRejectionReason issues ∈ canonicalReasons ∨
      determineRejectionReason issues = "Не подлежит нормализации: " ++ issues.headD "" := by
  unfold determineRejectionReason
  split
  · exact Or.inl (by decide)
  · split
    · exact Or.inl (by decide)
    · split
      · dsimp only
        split
        · exact Or.inl (by decide)
        · split
          · exact Or.inl (by decide)
          · exact Or.inl (by decide)
      · split
        · exact Or.inl (by decide)
        · exact Or.inr rfl

/-- Claim C6: a validation run is valid exactly when its issue list is
empty, in which case the rejection reason is `None`; otherwise the reason
is non-null and is a canonical fixed reason or the first issue behind the
generic rejection marker. -/
theorem validation_verdict_spec (product : Product) (research : Option ResearchDict)
    (okpd2 : Option OKPD2Result) (category : ProductCategory)
    (suggestOracle : Except String (List String)) :
    ((validationProcess product research okpd2 category suggestOracle).is_valid = true ↔
      (validationProcess product research okpd2 category suggestOracle).issues = [])
    ∧ ((validationProcess product research okpd2 category suggestOracle).is_valid = true →
        (validationProcess product research okpd2 category suggestOracle).rejection_reason
          = none)
    ∧ ((validationProcess product research okpd2 category suggestOracle).is_valid = false →
        ∃ s, (validationProcess product research okpd2 category suggestOracle).rejection_reason
            = some s ∧
          (s ∈ canonicalReasons ∨
            s = "Не подлежит нормализации: " ++
              (validationProcess product research okpd2 category
                suggestOracle).issues.headD "")) := by
  unfold validationProcess
  simp only []
  refine ⟨List.isEmpty_iff, ?_, ?_⟩
  · intro hv
    simp only [hv, if_true]
  · intro hv
    simp only [hv, Bool.false_eq_true, if_false]
    exact ⟨_, rfl, determineRejectionReason_shape _⟩

/-- Witness for claim C6 at a concrete invalid run (no research, no
classification, category `HAMMER`). -/
theorem validation_verdict_spec_witness :
    ∃ s, (validationProcess (mkProduct "P" "молоток" "шт") none none
        ProductCategory.HAMMER (Except.ok [])).rejection_reason = some s ∧
      (s ∈ canonicalReasons ∨
        s = "Не подлежит нормализации: " ++
          (validationProcess (mkProduct "P" "молоток" "шт") none none
            ProductCategory.HAMMER (Except.ok [])).issues.headD "") :=
  (validation_verdict_spec (mkProduct "P" "молоток" "шт") none none
    ProductCategory.HAMMER (Except.ok [])).2.2 (by decide)

/-- If validation is invalid, the rejection reason is exactly the
computed priority reason. -/
theorem validationProcess_invalid_reason (product : Product) (research : Option ResearchDict)
    (okpd2 : Option OKPD2Result) (category : ProductCategory)
    (suggestOracle : Except String (List String))
    (h : (validationProcess product research okpd2 category suggestOracle).is_valid = false) :
    (validationProcess product research okpd2 category suggestOracle).rejection_reason =
      some (determineRejectionReason
        (validationProcess product research okpd2 category suggestOracle).issues) := by
  unfold validationProcess at h ⊢
  simp only [] at h ⊢
  rw [h]
  simp

/-- Any product coming out of the orchestrator is the single-product
pipeline applied to some product and category. -/
theorem mem_processProducts
    (research : Product → Except String ResearchDict)
    (findCandidates : Product → Except String (List Candidate))
    (suggestOracle : Except String (List String))
    (products : List Product) (p : Product)
    (hp : p ∈ processProducts research findCandidates suggestOracle products) :
    ∃ q category, p = processSingleProduct research findCandidates suggestOracle q category := by
  unfold processProducts at hp
  obtain ⟨g, _, hp2⟩ := List.mem_flatMap.mp hp
  obtain ⟨b, _, hp3⟩ := List.mem_flatMap.mp hp2
  unfold processBatch at hp3
  obtain ⟨q, _, rfl⟩ := List.mem_map.mp hp3
  exact ⟨q, g.1, rfl⟩

/-- Terminal-state invariants of the single-product pipeline. -/
theorem processSingle_invariants
    (research : Product → Except String ResearchDict)
    (findCandidates : Product → Except String (List Candidate))
    (suggestOracle : Except String (List String))
    (q : Product) (category : ProductCategory) :
    ((processSingleProduct research findCandidates suggestOracle q category).status =
        ProcessingStatus.COMPLETED →
      (processSingleProduct research findCandidates suggestOracle q category).okpd2_code ≠ none ∧
      (processSingleProduct research findCandidates suggestOracle q category).normalized_unit
        ≠ none)
    ∧ ((processSingleProduct research findCandidates suggestOracle q category).status =
        ProcessingStatus.REJECTED →
      ∃ s, (processSingleProduct research findCandidates suggestOracle q category).comment
          = some s ∧
        (s ∈ canonicalReasons ∨ "Не подлежит нормализации: ".data <+: s.data))
    ∧ ((processSingleProduct research findCandidates suggestOracle q category).status =
        ProcessingStatus.FAILED →
      (processSingleProduct research findCandidates suggestOracle q category).error_message
        ≠ none) := by
  unfold processSingleProduct
  cases hres : research { q with status := ProcessingStatus.PROCESSING } with
  | error e =>
    simp only [hres]
    exact ⟨fun h => by simp at h, fun h => by simp at h, fun _ => by simp⟩
  | ok rd =>
    cases hcand : findCandidates { q with status := ProcessingStatus.PROCESSING } with
    | error e =>
      simp only [hres, hcand]
      exact ⟨fun h => by simp at h, fun h => by simp at h, fun _ => by simp⟩
    | ok cands =>
      simp only [hres, hcand]
      by_cases hv : (validationProcess { q with status := ProcessingStatus.PROCESSING }
          (some rd)
          (some (selectBestCode cands { q with status := ProcessingStatus.PROCESSING }
            category (some rd)))
          category suggestOracle).is_valid
      · rw [if_pos hv]
        exact ⟨fun _ => ⟨by simp, by simp⟩, fun h => by simp at h, fun h => by simp at h⟩
      · rw [if_neg hv]
        refine ⟨fun h => by simp at h, fun _ => ?_, fun h => by simp at h⟩
        have hreason := validationProcess_invalid_reason
          { q with status := ProcessingStatus.PROCESSING } (some rd)
          (some (selectBestCode cands { q with status := ProcessingStatus.PROCESSING }
            category (some rd)))
          category suggestOracle (Bool.eq_false_iff.mpr hv)
        refine ⟨determineRejectionReason
          (validationProcess { q with status := ProcessingStatus.PROCESSING } (some rd)
            (some (selectBestCode cands { q with status := ProcessingStatus.PROCESSING }
              category (some rd)))
            category suggestOracle).issues, by simp [hreason], ?_⟩
        rcases determineRejectionReason_shape
          (validationProcess { q with status := ProcessingStatus.PROCESSING } (some rd)
            (some (selectBestCode cands { q with status := ProcessingStatus.PROCESSING }
              category (some rd)))
            category suggestOracle).issues with hcan | hfb
        · exact Or.inl hcan
        · refine Or.inr ?_
          rw [hfb]
          exact ⟨_, (String.data_append _ _).symm⟩

/-- Claim C7: every product returned by the orchestrator satisfies the
terminal-state field invariants: COMPLETED products carry an OKPD2 code
and a normalized unit, REJECTED products carry the chosen rejection
reason in their comment, FAILED products carry an error message. -/
theorem processed_terminal_invariants
    (research : Product → Except String ResearchDict)
    (findCandidates : Product → Except String (List Candidate))
    (suggestOracle : Except String (List String))
    (products : List Product) :
    ∀ p ∈ processProducts research findCandidates suggestOracle products,
      (p.status = ProcessingStatus.COMPLETED →
        p.okpd2_code ≠ none ∧ p.normalized_unit ≠ none)
      ∧ (p.status = ProcessingStatus.REJECTED →
        ∃ s, p.comment = some s ∧
          (s ∈ canonicalReasons ∨ "Не подлежит нормализации: ".data <+: s.data))
      ∧ (p.status = ProcessingStatus.FAILED → p.error_message ≠ none) := by
  intro p hp
  obtain ⟨q, category, rfl⟩ :=
    mem_processProducts research findCandidates suggestOracle products p hp
  exact processSingle_invariants research findCandidates suggestOracle q category

/-- The single-product pipeline never changes the internal code or the
category field. -/
theorem processSingle_code_cat
    (research : Product → Except String ResearchDict)
    (findCandidates : Product → Except String (List Candidate))
    (suggestOracle : Except String (List String))
    (q : Product) (category : ProductCategory) :
    (processSingleProduct research findCandidates suggestOracle q category).internal_code
        = q.internal_code ∧
      (processSingleProduct research findCandidates suggestOracle q category).category
        = q.category := by
  unfold processSingleProduct
  cases hres : research { q with status := ProcessingStatus.PROCESSING } with
  | error e =>
    simp [hres]
  | ok rd =>
    cases hcand : findCandidates { q with status := ProcessingStatus.PROCESSING } with
    | error e =>
      simp [hres, hcand]
    | ok cands =>
      simp only [hres, hcand]
      split
      · simp
      · simp

/-- Flattening the fixed-size chunks gives back the original list. -/
theorem chunksAux_join (n : ℕ) :
    ∀ (l acc : List Product), (chunksAux n acc l).flatMap id = acc.reverse ++ l
  | [], acc => by
    unfold chunksAux
    by_cases h : acc.isEmpty
    · rw [if_pos h, List.isEmpty_iff.mp h]
      rfl
    · rw [if_neg h]
      simp
  | p :: rest, acc => by
    unfold chunksAux
    by_cases h : acc.length + 1 = n
    · rw [if_pos h]
      simp only [List.flatMap_cons, id]
      rw [chunksAux_join n rest []]
      simp
    · rw [if_neg h]
      rw [chunksAux_join n rest (p :: acc)]
      simp

/-- Batch processing of one category group keeps exactly the group's
identifiers, in order. -/
theorem batch_process_ids
    (research : Product → Except String ResearchDict)
    (findCandidates : Product → Except String (List Candidate))
    (suggestOracle : Except String (List String))
    (cat : ProductCategory) (ps : List Product) :
    ((createBatches ps).flatMap
        (fun b => processBatch research findCandidates suggestOracle b cat)).map
      (·.internal_code) = ps.map (·.internal_code) := by
  unfold createBatches processBatch
  rw [List.map_flatMap]
  have h1 : ∀ L : List (List Product),
      (L.flatMap (fun b =>
        (b.map (fun p => processSingleProduct research findCandidates suggestOracle p cat)).map
          (·.internal_code)))
        = (L.flatMap id).map (·.internal_code) := by
    intro L
    induction L with
    | nil => rfl
    | cons b L ih =>
      simp only [List.flatMap_cons, List.map_append, id]
      rw [ih, List.map_map]
      congr 1
      exact List.map_congr_left (fun p _ =>
        (processSingle_code_cat research findCandidates suggestOracle p cat).1)
  rw [h1, chunksAux_join]
  rfl

/-- The orchestrator's output identifiers are the concatenation of the
category groups' identifiers, in group order. -/
theorem processProducts_ids
    (research : Product → Except String ResearchDict)
    (findCandidates : Product → Except String (List Candidate))
    (suggestOracle : Except String (List String))
    (products : List Product) :
    (processProducts research findCandidates suggestOracle products).map (·.internal_code)
      = (categorizeProducts products).flatMap (fun g => g.2.map (·.internal_code)) := by
  unfold processProducts
  rw [List.map_flatMap]
  have h2 : ∀ L : List (ProductCategory × List Product),
      (L.flatMap (fun g =>
        ((createBatches g.2).flatMap
          (fun b => processBatch research findCandidates suggestOracle b g.1)).map
            (·.internal_code)))
        = L.flatMap (fun g => g.2.map (·.internal_code)) := by
    intro L
    induction L with
    | nil => rfl
    | cons g L ih =>
      simp only [List.flatMap_cons, ih]
      congr 1
      exact batch_process_ids research findCandidates suggestOracle g.1 g.2
  exact h2 _

/-- Updating an existing key leaves all keys unchanged. -/
theorem updKeys (gs : List (ProductCategory × List Product)) (p : Product) :
    (gs.map (fun g => if g.1 = p.category then (g.1, g.2 ++ [p]) else g)).map (·.1)
      = gs.map (·.1) := by
  rw [List.map_map]
  exact List.map_congr_left (fun g _ => by
    by_cases h : g.1 = p.category <;> simp [h])

/-- Appending to groups preserves distinctness of the keys. -/
theorem addToGroups_keys_nodup (gs : List (ProductCategory × List Product)) (p : Product)
    (h : (gs.map (·.1)).Nodup) : ((addToGroups gs p).map (·.1)).Nodup := by
  unfold addToGroups
  split
  · rwa [updKeys]
  · rename_i hnone
    have h2 : p.category ∉ gs.map (·.1) := by
      intro hmem
      obtain ⟨g, hg, hgp⟩ := List.mem_map.mp hmem
      have := List.find?_eq_none.mp (Option.not_isSome_iff_eq_none.mp hnone) g hg
      simp [hgp] at this
    simp only [List.map_append, List.map_cons, List.map_nil]
    rw [List.nodup_append]
    exact ⟨h, List.nodup_singleton _, fun a ha hab => h2 ((List.mem_singleton.mp hab) ▸ ha)⟩

/-- A key absent from every group contributes nothing. -/
theorem groupIds_nil_of_no_key (cat : ProductCategory)
    (gs : List (ProductCategory × List Product)) (h : ∀ g ∈ gs, g.1 ≠ cat) :
    gs.flatMap (groupIds cat) = [] := by
  induction gs with
  | nil => rfl
  | cons g rest ih =>
    simp only [List.flatMap_cons]
    rw [show groupIds cat g = [] from by
      unfold groupIds
      exact if_neg (h g (List.mem_cons_self _ _))]
    exact ih (fun g2 hg2 => h g2 (List.mem_cons_of_mem _ hg2))

/-- Entries with other keys are untouched by the update map. -/
theorem updUnchanged (gs : List (ProductCategory × List Product)) (p : Product)
    (h : ∀ g ∈ gs, g.1 ≠ p.category) :
    gs.map (fun g => if g.1 = p.category then (g.1, g.2 ++ [p]) else g) = gs := by
  conv_rhs => rw [← List.map_id gs]
  exact List.map_congr_left (fun g hg => by rw [if_neg (h g hg)]; rfl)

/-- Appending a product to the group of its (unique) key extends that
key's contribution by the product's identifier. -/
theorem mapped_groupIds (cat : ProductCategory) (p : Product) :
    ∀ gs : List (ProductCategory × List Product), (gs.map (·.1)).Nodup →
      (∃ g ∈ gs, g.1 = p.category) →
      (gs.map (fun g => if g.1 = p.category then (g.1, g.2 ++ [p]) else g)).flatMap
          (groupIds cat)
        = gs.flatMap (groupIds cat)
          ++ (if p.category = cat then [p.internal_code] else []) := by
  intro gs
  induction gs with
  | nil => rintro - ⟨g, hg, -⟩; cases hg
  | cons g rest ih =>
    intro hnd hex
    have hndr : (rest.map (·.1)).Nodup := (List.nodup_cons.mp hnd).2
    have hghd : g.1 ∉ rest.map (·.1) := (List.nodup_cons.mp hnd).1
    by_cases hg : g.1 = p.category
    · have hrest : ∀ g2 ∈ rest, g2.1 ≠ p.category := by
        intro g2 hg2 hab
        exact hghd (hg ▸ hab ▸ List.mem_map_of_mem (·.1) hg2)
      simp only [List.map_cons, List.flatMap_cons, if_pos hg, updUnchanged rest p hrest]
      by_cases hc : g.1 = cat
      · have hpc : p.category = cat := hg.symm.trans hc
        have hrestnil : rest.flatMap (groupIds cat) = [] :=
          groupIds_nil_of_no_key cat rest (fun g2 hg2 hab =>
            hghd (hc ▸ hab ▸ List.mem_map_of_mem (·.1) hg2))
        rw [show groupIds cat (g.1, g.2 ++ [p])
            = g.2.map (·.internal_code) ++ [p.internal_code] from by
          unfold groupIds
          rw [if_pos hc]
          simp]
        rw [show groupIds cat g = g.2.map (·.internal_code) from by
          unfold groupIds
          rw [if_pos hc]]
        rw [hrestnil, if_pos hpc]
        simp
      · have hpc : ¬ p.category = cat := fun hab => hc (hg.trans hab)
        rw [show groupIds cat (g.1, g.2 ++ [p]) = [] from by
          unfold groupIds
          exact if_neg hc]
        rw [show groupIds cat g = [] from by
          unfold groupIds
          exact if_neg hc]
        rw [if_neg hpc]
        simp
    · have hex2 : ∃ g2 ∈ rest, g2.1 = p.category := by
        obtain ⟨g2, hg2, hgp⟩ := hex
        rcases List.mem_cons.mp hg2 with rfl | hmem
        · exact absurd hgp hg
        · exact ⟨g2, hmem, hgp⟩
      simp only [List.map_cons, List.flatMap_cons, if_neg hg, ih hndr hex2,
        List.append_assoc]

/-- One `addToGroups` step extends exactly the product's own category's
contribution. -/
theorem addToGroups_groupIds (cat : ProductCategory)
    (gs : List (ProductCategory × List Product)) (p : Product)
    (hnd : (gs.map (·.1)).Nodup) :
    (addToGroups gs p).flatMap (groupIds cat)
      = gs.flatMap (groupIds cat) ++ (if p.category = cat then [p.internal_code] else []) := by
  unfold addToGroups
  split
  · rename_i hsome
    obtain ⟨g, hg, hgp⟩ := List.find?_isSome.mp hsome
    exact mapped_groupIds cat p gs hnd ⟨g, hg, by simpa using hgp⟩
  · rw [List.flatMap_append]
    congr 1
    unfold groupIds
    by_cases h : p.category = cat <;> simp [h]

/-- Folding products into groups accumulates, per category, exactly the
products of that category in input order. -/
theorem foldl_groupIds (cat : ProductCategory) :
    ∀ (l : List Product) (gs : List (ProductCategory × List Product)),
      (gs.map (·.1)).Nodup →
      (l.foldl addToGroups gs).flatMap (groupIds cat)
        = gs.flatMap (groupIds cat)
          ++ (l.filter (fun q => q.category = cat)).map (·.internal_code)
  | [], gs, _ => by simp
  | p :: rest, gs, hnd => by
    simp only [List.foldl_cons]
    rw [foldl_groupIds cat rest (addToGroups gs p) (addToGroups_keys_nodup gs p hnd)]
    rw [addToGroups_groupIds cat gs p hnd]
    rw [List.append_assoc]
    congr 1
    by_cases h : p.category = cat
    · simp [List.filter_cons, h]
    · simp [List.filter_cons, h]

/-- Every product stored in a group carries that group's category. -/
theorem mem_groups_category :
    ∀ (l : List Product) (gs : List (ProductCategory × List Product)),
      (∀ g ∈ gs, ∀ q ∈ g.2, q.category = g.1) →
      ∀ g ∈ l.foldl addToGroups gs, ∀ q ∈ g.2, q.category = g.1
  | [], _, h => h
  | p :: rest, gs, h => by
    simp only [List.foldl_cons]
    apply mem_groups_category rest
    unfold addToGroups
    split
    · intro g hg q hq
      obtain ⟨g0, hg0, hup⟩ := List.mem_map.mp hg
      by_cases hk : g0.1 = p.category
      · rw [if_pos hk] at hup
        rw [← hup] at hq ⊢
        rcases List.mem_append.mp hq with hold | hnew
        · exact h g0 hg0 q hold
        · rw [List.mem_singleton.mp hnew]
          exact hk.symm
      · rw [if_neg hk] at hup
        rw [← hup] at hq ⊢
        exact h g0 hg0 q hq
    · intro g hg q hq
      rcases List.mem_append.mp hg with hin | hnew
      · exact h g hin q hq
      · rw [List.mem_singleton.mp hnew] at hq ⊢
        rw [List.mem_singleton.mp hq]
  termination_by l _ _ => l.length

/-- Filtering distributes over flat maps. -/
theorem filter_flatMap {α β : Type} (l : List α) (f : α → List β) (p : β → Bool) :
    (l.flatMap f).filter p = l.flatMap (fun a => (f a).filter p) := by
  induction l with
  | nil => rfl
  | cons a l ih => simp [List.flatMap_cons, List.filter_append, ih]

/-- Flat maps respect pointwise equality on the list. -/
theorem flatMap_congr {α β : Type} (l : List α) (f f2 : α → List β)
    (h : ∀ a ∈ l, f a = f2 a) : l.flatMap f = l.flatMap f2 := by
  induction l with
  | nil => rfl
  | cons a l ih =>
    rw [List.flatMap_cons, List.flatMap_cons, h a (List.mem_cons_self _ _),
      ih (fun a2 ha2 => h a2 (List.mem_cons_of_mem _ ha2))]

/-- Restricted to one category, the orchestrator's output identifiers
are the input identifiers of that category, in input order. -/
theorem processProducts_filter_ids
    (research : Product → Except String ResearchDict)
    (findCandidates : Product → Except String (List Candidate))
    (suggestOracle : Except String (List String))
    (products : List Product) (cat : ProductCategory) :
    ((processProducts research findCandidates suggestOracle products).filter
        (fun q => q.category = cat)).map (·.internal_code)
      = ((products.map detectStep).filter (fun q => q.category = cat)).map
          (·.internal_code) := by
  unfold processProducts
  rw [filter_flatMap, List.map_flatMap]
  have hinv := mem_groups_category (products.map detectStep) []
    (by intro g hg; cases hg)
  have hgrp : ∀ g ∈ categorizeProducts products,
      (((createBatches g.2).flatMap
          (fun b => processBatch research findCandidates suggestOracle b g.1)).filter
        (fun q => q.category = cat)).map (·.internal_code) = groupIds cat g := by
    intro g hg
    have hallcat : ∀ x ∈ (createBatches g.2).flatMap
        (fun b => processBatch research findCandidates suggestOracle b g.1),
        x.category = g.1 := by
      intro x hx
      obtain ⟨b, hb, hxb⟩ := List.mem_flatMap.mp hx
      unfold processBatch at hxb
      obtain ⟨q, hqb, rfl⟩ := List.mem_map.mp hxb
      have hqg : q ∈ g.2 := by
        have hmem : q ∈ (createBatches g.2).flatMap id := List.mem_flatMap.mpr ⟨b, hb, hqb⟩
        rwa [show (createBatches g.2).flatMap id = g.2 from by
          unfold createBatches
          rw [chunksAux_join]
          rfl] at hmem
      rw [(processSingle_code_cat research findCandidates suggestOracle q g.1).2]
      exact hinv g hg q hqg
    by_cases hc : g.1 = cat
    · rw [show groupIds cat g = g.2.map (·.internal_code) from by
        unfold groupIds
        rw [if_pos hc]]
      rw [List.filter_eq_self.mpr (fun x hx => by simp [hallcat x hx, hc])]
      exact batch_process_ids research findCandidates suggestOracle g.1 g.2
    · rw [show groupIds cat g = [] from by
        unfold groupIds
        exact if_neg hc]
      rw [List.filter_eq_nil_iff.mpr (fun x hx => by simp [hallcat x hx, hc])]
      rfl
  rw [flatMap_congr _ _ _ hgrp]
  rw [show categorizeProducts products = (products.map detectStep).foldl addToGroups []
    from rfl]
  rw [foldl_groupIds cat _ [] (by simp)]
  rfl

/-- The length of a product list is the sum of its per-category filter
lengths. -/
theorem length_eq_sum_filter (l : List Product) :
    l.length = (l.filter (fun q => q.category = ProductCategory.PRESSURE_SENSOR)).length
      + (l.filter (fun q => q.category = ProductCategory.STEEL_CIRCLE)).length
      + (l.filter (fun q => q.category = ProductCategory.HAMMER)).length
      + (l.filter (fun q => q.category = ProductCategory.TIRE)).length
      + (l.filter (fun q => q.category = ProductCategory.UNKNOWN)).length := by
  induction l with
  | nil => rfl
  | cons p l ih =>
    cases hp : p.category <;> simp [List.filter_cons, hp] <;> omega

/-- The orchestrator yields exactly one output per input. -/
theorem processProducts_length
    (research : Product → Except String ResearchDict)
    (findCandidates : Product → Except String (List Candidate))
    (suggestOracle : Except String (List String))
    (products : List Product) :
    (processProducts research findCandidates suggestOracle products).length
      = products.length := by
  have hf : ∀ cat, ((processProducts research findCandidates suggestOracle products).filter
      (fun q => q.category = cat)).length
      = ((products.map detectStep).filter (fun q => q.category = cat)).length := by
    intro cat
    have h := congrArg List.length
      (processProducts_filter_ids research findCandidates suggestOracle products cat)
    simpa using h
  have h1 := length_eq_sum_filter
    (processProducts research findCandidates suggestOracle products)
  have h2 := length_eq_sum_filter (products.map detectStep)
  have h3 : (products.map detectStep).length = products.length := List.length_map _ _
  have hfa := hf ProductCategory.PRESSURE_SENSOR
  have hfb := hf ProductCategory.STEEL_CIRCLE
  have hfc := hf ProductCategory.HAMMER
  have hfd := hf ProductCategory.TIRE
  have hfe := hf ProductCategory.UNKNOWN
  omega

/-- A failing research call turns the product into FAILED with the error
captured. -/
theorem processSingle_status_of_error
    (research : Product → Except String ResearchDict)
    (findCandidates : Product → Except String (List Candidate))
    (suggestOracle : Except String (List String))
    (q : Product) (category : ProductCategory)
    (h : ∃ msg, research { q with status := ProcessingStatus.PROCESSING }
      = Except.error msg) :
    (processSingleProduct research findCandidates suggestOracle q category).status
        = ProcessingStatus.FAILED ∧
      (processSingleProduct research findCandidates suggestOracle q category).error_message
        ≠ none := by
  obtain ⟨msg, hmsg⟩ := h
  unfold processSingleProduct
  simp [hmsg]

/-- Successful oracle calls leave the product COMPLETED or REJECTED. -/
theorem processSingle_status_of_ok
    (research : Product → Except String ResearchDict)
    (findCandidates : Product → Except String (List Candidate))
    (suggestOracle : Except String (List String))
    (q : Product) (category : ProductCategory)
    (hres : ∃ rd, research { q with status := ProcessingStatus.PROCESSING } = Except.ok rd)
    (hcand : ∃ cs, findCandidates { q with status := ProcessingStatus.PROCESSING }
      = Except.ok cs) :
    (processSingleProduct research findCandidates suggestOracle q category).status
        = ProcessingStatus.COMPLETED ∨
      (processSingleProduct research findCandidates suggestOracle q category).status
        = ProcessingStatus.REJECTED := by
  obtain ⟨rd, hrd⟩ := hres
  obtain ⟨cs, hcs⟩ := hcand
  unfold processSingleProduct
  simp only [hrd, hcs]
  split
  · exact Or.inl (by simp)
  · exact Or.inr (by simp)

/-- Amended claim C2: with one product whose research call always fails
and all other calls succeeding, the orchestrator yields exactly N
outputs; the failing product is FAILED with its error captured; every
other product is COMPLETED or REJECTED; and the output order is the
input order grouped by detected category — the category groups appear in
first-appearance order and the input order is preserved inside every
category (the overall output order therefore differs from the plain
input order whenever categories interleave). -/
theorem orchestrator_failure_isolation
    (research : Product → Except String ResearchDict)
    (findCandidates : Product → Except String (List Candidate))
    (suggestOracle : Except String (List String))
    (products : List Product) (badId : String)
    (hbad : ∀ q : Product, q.internal_code = badId →
      ∃ msg, research q = Except.error msg)
    (hgoodR : ∀ q : Product, q.internal_code ≠ badId →
      ∃ rd, research q = Except.ok rd)
    (hgoodC : ∀ q : Product, q.internal_code ≠ badId →
      ∃ cs, findCandidates q = Except.ok cs)
    (_hcount : products.countP (fun q => q.internal_code = badId) = 1) :
    (processProducts research findCandidates suggestOracle products).length = products.length
    ∧ (∀ p ∈ processProducts research findCandidates suggestOracle products,
        p.internal_code = badId →
          p.status = ProcessingStatus.FAILED ∧ p.error_message ≠ none)
    ∧ (∀ p ∈ processProducts research findCandidates suggestOracle products,
        p.internal_code ≠ badId →
          p.status = ProcessingStatus.COMPLETED ∨ p.status = ProcessingStatus.REJECTED)
    ∧ (processProducts research findCandidates suggestOracle products).map (·.internal_code)
        = (categorizeProducts products).flatMap (fun g => g.2.map (·.internal_code))
    ∧ (∀ cat : ProductCategory,
        ((processProducts research findCandidates suggestOracle products).filter
            (fun q => q.category = cat)).map (·.internal_code)
          = ((products.map detectStep).filter (fun q => q.category = cat)).map
              (·.internal_code)) := by
  refine ⟨processProducts_length research findCandidates suggestOracle products,
    ?_, ?_,
    processProducts_ids research findCandidates suggestOracle products,
    processProducts_filter_ids research findCandidates suggestOracle products⟩
  · intro p hp hid
    obtain ⟨q, category, rfl⟩ :=
      mem_processProducts research findCandidates suggestOracle products p hp
    have hqid : q.internal_code = badId := by
      rw [← (processSingle_code_cat research findCandidates suggestOracle q category).1]
      exact hid
    exact processSingle_status_of_error research findCandidates suggestOracle q category
      (hbad { q with status := ProcessingStatus.PROCESSING } hqid)
  · intro p hp hid
    obtain ⟨q, category, rfl⟩ :=
      mem_processProducts research findCandidates suggestOracle products p hp
    have hqid : q.internal_code ≠ badId := by
      rw [← (processSingle_code_cat research findCandidates suggestOracle q category).1]
      exact hid
    exact processSingle_status_of_ok research findCandidates suggestOracle q category
      (hgoodR { q with status := ProcessingStatus.PROCESSING } hqid)
      (hgoodC { q with status := ProcessingStatus.PROCESSING } hqid)

unseal Rat.add Rat.mul in
/-- Counterexample for claim C2 as stated: with three products of
interleaved categories, one engineered to always fail, the orchestrator's
output order is the category-grouped order ["A", "C", "B"], not the input
order ["A", "B", "C"]. -/
theorem orchestrator_order_counterexample :
    researchStub { mkProduct "B" "Шина летняя" "шт" with
        category := ProductCategory.TIRE, status := ProcessingStatus.PROCESSING }
      = Except.error "boom"
    ∧ sampleProducts.countP (fun q => q.internal_code = "B") = 1
    ∧ (processProducts researchStub candidatesStub (Except.ok []) sampleProducts).map
        (·.internal_code) = ["A", "C", "B"]
    ∧ sampleProducts.map (·.internal_code) = ["A", "B", "C"]
    ∧ (processProducts researchStub candidatesStub (Except.ok []) sampleProducts).map
        (·.internal_code) ≠ sampleProducts.map (·.internal_code) := by
  refine ⟨rfl, by decide, by decide, by decide, by decide⟩

/-- Witness for the amended claim C2 at the concrete stub oracles and
sample products. -/
theorem orchestrator_failure_isolation_witness :
    (processProducts researchStub candidatesStub (Except.ok []) sampleProducts).length
        = sampleProducts.length
    ∧ (∀ p ∈ processProducts researchStub candidatesStub (Except.ok []) sampleProducts,
        p.internal_code = "B" →
          p.status = ProcessingStatus.FAILED ∧ p.error_message ≠ none)
    ∧ (∀ p ∈ processProducts researchStub candidatesStub (Except.ok []) sampleProducts,
        p.internal_code ≠ "B" →
          p.status = ProcessingStatus.COMPLETED ∨ p.status = ProcessingStatus.REJECTED)
    ∧ (processProducts researchStub candidatesStub (Except.ok []) sampleProducts).map
        (·.internal_code)
        = (categorizeProducts sampleProducts).flatMap (fun g => g.2.map (·.internal_code))
    ∧ (∀ cat : ProductCategory,
        ((processProducts researchStub candidatesStub (Except.ok []) sampleProducts).filter
            (fun q => q.category = cat)).map (·.internal_code)
          = ((sampleProducts.map detectStep).filter (fun q => q.category = cat)).map
              (·.internal_code)) :=
  orchestrator_failure_isolation researchStub candidatesStub (Except.ok [])
    sampleProducts "B"
    (fun q hq => ⟨"boom", by unfold researchStub; rw [if_pos hq]⟩)
    (fun q hq => ⟨{ product_name := q.original_name }, by unfold researchStub; rw [if_neg hq]⟩)
    (fun _ _ => ⟨[], rfl⟩)
    (by decide)

/-- The unit-normalization code in closed form: first listed valid unit
when the original unit matches case-insensitively, otherwise the original
unit. -/
theorem getNormalizedUnit_eq (product : Product) (category : ProductCategory) :
    getNormalizedUnit product category =
      if ((validUnitsOf category).map pyLowerStr).contains (pyLowerStr product.original_unit)
      then (validUnitsOf category).headD ""
      else product.original_unit := by
  cases category <;> rfl

/-- Claim C10: the normalized unit is always a (non-null) string; for a
known category whose valid units contain the original unit
case-insensitively it is the category's first-listed canonical form, and
otherwise it is the original unit unchanged. -/
theorem get_normalized_unit_spec (product : Product) (category : ProductCategory) :
    (category ≠ ProductCategory.UNKNOWN →
      pyLowerStr product.original_unit ∈ (validUnitsOf category).map pyLowerStr →
      getNormalizedUnit product category = (validUnitsOf category).headD "")
    ∧ (category = ProductCategory.UNKNOWN →
      getNormalizedUnit product category = product.original_unit)
    ∧ (pyLowerStr product.original_unit ∉ (validUnitsOf category).map pyLowerStr →
      getNormalizedUnit product category = product.original_unit) := by
  refine ⟨?_, ?_, ?_⟩
  · intro _ hmem
    rw [getNormalizedUnit_eq, if_pos (List.elem_eq_true_of_mem hmem)]
  · rintro rfl
    rfl
  · intro hmem
    rw [getNormalizedUnit_eq,
      if_neg (fun hc => hmem (List.mem_of_elem_eq_true hc))]

/-- Witness for claim C10: the uppercase unit "ШТ" of a HAMMER product is
normalized to the first listed form. -/
theorem get_normalized_unit_spec_witness :
    getNormalizedUnit (mkProduct "P" "молоток" "ШТ") ProductCategory.HAMMER =
      (validUnitsOf ProductCategory.HAMMER).headD "" :=
  (get_normalized_unit_spec (mkProduct "P" "молоток" "ШТ") ProductCategory.HAMMER).1
    (by decide) (by decide)

set_option maxRecDepth 4000 in
unseal Rat.add Rat.mul in
/-- Witness for claim C7 at the concrete stub oracles and sample
products, instantiated at the first returned product. -/
theorem processed_terminal_invariants_witness :
    (((processProducts researchStub candidatesStub (Except.ok []) sampleProducts).headD
          (mkProduct "Z" "z" "z")).status = ProcessingStatus.COMPLETED →
        ((processProducts researchStub candidatesStub (Except.ok []) sampleProducts).headD
          (mkProduct "Z" "z" "z")).okpd2_code ≠ none ∧
        ((processProducts researchStub candidatesStub (Except.ok []) sampleProducts).headD
          (mkProduct "Z" "z" "z")).normalized_unit ≠ none)
    ∧ (((processProducts researchStub candidatesStub (Except.ok []) sampleProducts).headD
          (mkProduct "Z" "z" "z")).status = ProcessingStatus.REJECTED →
        ∃ s, ((processProducts researchStub candidatesStub (Except.ok []) sampleProducts).headD
            (mkProduct "Z" "z" "z")).comment = some s ∧
          (s ∈ canonicalReasons ∨ "Не подлежит нормализации: ".data <+: s.data))
    ∧ (((processProducts researchStub candidatesStub (Except.ok []) sampleProducts).headD
          (mkProduct "Z" "z" "z")).status = ProcessingStatus.FAILED →
        ((processProducts researchStub candidatesStub (Except.ok []) sampleProducts).headD
          (mkProduct "Z" "z" "z")).error_message ≠ none) :=
  processed_terminal_invariants researchStub candidatesStub (Except.ok []) sampleProducts
    ((processProducts researchStub candidatesStub (Except.ok []) sampleProducts).headD
      (mkProduct "Z" "z" "z"))
    (by decide)
